import Mathlib

/-!
Verification development for an Ethereum ABI decoder web application.

The repository has two layers:
* a pure ABI codec library (`parseAbi`, `decodeData`, `formatDecodedResult`,
  `findFunction`), a contract-metadata resolver with a TTL cache
  (`abiFetcher.fetchContractAbi`) and a transaction fetcher; and
* React hooks (`useAbiDecoder`, `useAbiDecoderForm`) holding the UI state
  machine that invokes the library.

The hooks are embedded directly from their TypeScript sources.  The library
files themselves are not part of the provided sources, so their definitions
below are modelled from the specification (each such definition carries a
`Modelled from the spec:` doc comment).
-/

namespace AbiDec

/-! ## Byte-level utilities -/

/-- Big-endian bytes (most significant first) of `n`, truncated to `w` bytes. -/
def natToBE : Nat → Nat → List Nat
  | 0, _ => []
  | w + 1, n => natToBE w (n / 256) ++ [n % 256]

/-- Interpret a big-endian byte list as a natural number. -/
def beToNat (bs : List Nat) : Nat := bs.foldl (fun acc b => acc * 256 + b) 0

/-- Little-endian bytes of `n`, truncated to `w` bytes. -/
def natToLE : Nat → Nat → List Nat
  | 0, _ => []
  | w + 1, n => n % 256 :: natToLE w (n / 256)

/-- Interpret a little-endian byte list as a natural number. -/
def leToNat : List Nat → Nat
  | [] => 0
  | b :: bs => b % 256 + 256 * leToNat bs

theorem natToBE_length (w n : Nat) : (natToBE w n).length = w := by
  induction w generalizing n with
  | zero => rfl
  | succ w ih => simp [natToBE, ih]

theorem natToLE_length (w n : Nat) : (natToLE w n).length = w := by
  induction w generalizing n with
  | zero => rfl
  | succ w ih => simp [natToLE, ih]

theorem beToNat_go (a : Nat) (bs : List Nat) :
    List.foldl (fun acc b => acc * 256 + b) a bs =
      a * 256 ^ bs.length + List.foldl (fun acc b => acc * 256 + b) 0 bs := by
  induction bs generalizing a with
  | nil => simp
  | cons b bs ih =>
      simp only [List.foldl_cons, List.length_cons]
      rw [ih (a * 256 + b), ih (0 * 256 + b)]
      ring

theorem beToNat_append (xs ys : List Nat) :
    beToNat (xs ++ ys) = beToNat xs * 256 ^ ys.length + beToNat ys := by
  simp only [beToNat, List.foldl_append]
  exact beToNat_go _ ys

theorem beToNat_natToBE (w n : Nat) : beToNat (natToBE w n) = n % 256 ^ w := by
  induction w generalizing n with
  | zero => simp [natToBE, beToNat, Nat.mod_one]
  | succ w ih =>
      rw [natToBE, beToNat_append, ih]
      have hb : beToNat [n % 256] = n % 256 := by simp [beToNat]
      rw [hb]
      have h256 : (256 : Nat) ^ (w + 1) = 256 * 256 ^ w := by ring
      rw [h256, Nat.mod_mul]
      simp only [List.length_cons, List.length_nil, pow_one]
      ring

/-! ## Keccak-256

Modelled from the spec: the external hash primitive `keccak256(bytes) -> 32
bytes` (spec §6) used only for selector derivation; the implementation is the
Ethereum Keccak-256 variant (original Keccak padding `0x01`, rate 1088 bits),
not the SHA3-standard padding. -/

def rot64 (x n : Nat) : Nat :=
  ((x <<< n) % (2 ^ 64)) ||| (x >>> (64 - n))

def get25 (s : List Nat) (i : Nat) : Nat := s.getD i 0

def keccakTheta (s : List Nat) : List Nat :=
  let c := (List.range 5).map (fun x =>
    get25 s x ^^^ get25 s (x + 5) ^^^ get25 s (x + 10) ^^^
      get25 s (x + 15) ^^^ get25 s (x + 20))
  let d := (List.range 5).map (fun x =>
    c.getD ((x + 4) % 5) 0 ^^^ rot64 (c.getD ((x + 1) % 5) 0) 1)
  (List.range 25).map (fun i => get25 s i ^^^ d.getD (i % 5) 0)

def rhoOffsets : List Nat :=
  [0, 1, 62, 28, 27] ++ [36, 44, 6, 55, 20] ++ [3, 10, 43, 25, 39] ++
    [41, 45, 15, 21, 8] ++ [18, 2, 61, 56, 14]

def keccakRhoPi (s : List Nat) : List Nat :=
  (List.range 25).map (fun j =>
    let bigX := j % 5
    let bigY := j / 5
    let x := 3 * (bigY + 2 * bigX) % 5
    let src := x + 5 * bigX
    rot64 (get25 s src) (rhoOffsets.getD src 0))

def keccakChi (s : List Nat) : List Nat :=
  (List.range 25).map (fun j =>
    let x := j % 5
    let y5 := j - x
    get25 s j ^^^ ((get25 s ((x + 1) % 5 + y5) ^^^ (2 ^ 64 - 1)) &&&
      get25 s ((x + 2) % 5 + y5)))

def keccakRC : List Nat :=
  [1, 32898, 9223372036854808714,
   9223372039002292224, 32907, 2147483649,
   9223372039002292353, 9223372036854808585, 138,
   136, 2147516425, 2147483658,
   2147516555, 9223372036854775947, 9223372036854808713,
   9223372036854808579, 9223372036854808578, 9223372036854775936,
   32778, 9223372039002259466, 9223372039002292353,
   9223372036854808704, 2147483649, 9223372039002292232]

def keccakRound (s : List Nat) (rc : Nat) : List Nat :=
  match keccakChi (keccakRhoPi (keccakTheta s)) with
  | [] => []
  | a0 :: rest => (a0 ^^^ rc) :: rest

def keccakF (s : List Nat) : List Nat := keccakRC.foldl keccakRound s

/-- Split a byte list into consecutive blocks of 136 bytes (the Keccak-256
rate); the fuel argument bounds the number of blocks so the recursion is
structural.  The input is always a padded message, a positive multiple of
136 bytes long. -/
def chunksAux : Nat → List Nat → List (List Nat)
  | 0, _ => []
  | _ + 1, [] => []
  | k + 1, b :: bs => ((b :: bs).take 136) :: chunksAux k ((b :: bs).drop 136)

def chunks136 (bs : List Nat) : List (List Nat) := chunksAux bs.length bs

/-- Multi-rate padding of original Keccak: append `0x01`, zero-fill, set the
final bit of the block (`0x80`); a single `0x81` byte when one byte remains. -/
def keccakPad (m : List Nat) : List Nat :=
  let q := 136 - m.length % 136
  if q = 1 then m ++ [0x81]
  else m ++ [0x01] ++ List.replicate (q - 2) 0 ++ [0x80]

def absorbBlock (s : List Nat) (block : List Nat) : List Nat :=
  let lanes := (List.range 17).map (fun i => leToNat ((block.drop (8 * i)).take 8))
  keccakF ((List.range 25).map (fun i =>
    get25 s i ^^^ (if i < 17 then lanes.getD i 0 else 0)))

def keccak256 (m : List Nat) : List Nat :=
  let s := (chunks136 (keccakPad m)).foldl absorbBlock (List.replicate 25 0)
  natToLE 8 (get25 s 0) ++ natToLE 8 (get25 s 1) ++
    natToLE 8 (get25 s 2) ++ natToLE 8 (get25 s 3)

theorem keccak256_length (m : List Nat) : (keccak256 m).length = 32 := by
  simp [keccak256, natToLE_length]

/-! ## Type descriptors and decoded values

Modelled from the spec: `TypeDescriptor` and `DecodedValue` (§3) of the ABI
codec library `src/lib/abi-decoder.ts`, which is not among the provided
sources.  `TyList`/`ValList` are the field/element lists, kept as a mutual
inductive so that all codec functions are structurally recursive.  Strings
are carried as raw byte lists (the spec's lossy-UTF-8 concern is a display
matter).  Tuples have at least one component (Solidity has no zero-component
tuples); the `bits`/width invariants of §3 are `validTy` below. -/

mutual
inductive Ty where
  | address : Ty
  | boolT : Ty
  | uintT (bits : Nat) : Ty
  | intT (bits : Nat) : Ty
  | fixedBytes (n : Nat) : Ty
  | bytesT : Ty
  | stringT : Ty
  | arrayT (elem : Ty) (len : Option Nat) : Ty
  | tupleT (fields : TyList) : Ty
  deriving Repr
inductive TyList where
  | nil : TyList
  | cons (t : Ty) (ts : TyList) : TyList
  deriving Repr
end

mutual
inductive Val where
  | vaddr (a : Nat) : Val
  | vbool (b : Bool) : Val
  | vuint (n : Nat) : Val
  | vint (i : Int) : Val
  | vbytes (bs : List Nat) : Val
  | vstr (bs : List Nat) : Val
  | vlist (vs : ValList) : Val
  | vtuple (vs : ValList) : Val
  deriving Repr
inductive ValList where
  | nil : ValList
  | cons (v : Val) (vs : ValList) : ValList
  deriving Repr
end

def TyList.toList : TyList → List Ty
  | .nil => []
  | .cons t ts => t :: ts.toList

def TyList.ofList : List Ty → TyList
  | [] => .nil
  | t :: ts => .cons t (TyList.ofList ts)

def ValList.toList : ValList → List Val
  | .nil => []
  | .cons v vs => v :: vs.toList

def ValList.ofList : List Val → ValList
  | [] => .nil
  | v :: vs => .cons v (ValList.ofList vs)

def vlen : ValList → Nat
  | .nil => 0
  | .cons _ vs => vlen vs + 1

mutual
/-- Modelled from the spec: a type is dynamic if it is dynamic bytes, a
string, a dynamic array, or an array/tuple containing a dynamic element
(§4.3 step 2-3); computed once from the `TypeDescriptor`. -/
def isDynamic : Ty → Bool
  | .bytesT => true
  | .stringT => true
  | .arrayT _ none => true
  | .arrayT e (some _) => isDynamic e
  | .tupleT fs => anyDynamic fs
  | _ => false
def anyDynamic : TyList → Bool
  | .nil => false
  | .cons t ts => isDynamic t || anyDynamic ts
end

mutual
/-- Modelled from the spec: the number of bytes a type occupies in the head
of the ABI head/tail layout — 32 for every dynamic type (the offset word)
and for every static scalar, the summed field sizes for a static tuple, and
`n` times the element size for a static fixed array (§4.3, glossary). -/
def headSize : Ty → Nat
  | .arrayT e (some n) => if isDynamic e then 32 else n * headSize e
  | .arrayT _ none => 32
  | .tupleT fs => if anyDynamic fs then 32 else headsSize fs
  | _ => 32
def headsSize : TyList → Nat
  | .nil => 0
  | .cons t ts => headSize t + headsSize ts
end

mutual
/-- Modelled from the spec: the §3 invariants of `TypeDescriptor` — integer
widths are whole bytes in 8..256, fixed byte widths 1..32, fixed array
lengths positive, tuples non-empty, recursively. -/
def validTy : Ty → Bool
  | .address => true
  | .boolT => true
  | .uintT bits => decide (bits % 8 = 0 ∧ 8 ≤ bits ∧ bits ≤ 256)
  | .intT bits => decide (bits % 8 = 0 ∧ 8 ≤ bits ∧ bits ≤ 256)
  | .fixedBytes n => decide (1 ≤ n ∧ n ≤ 32)
  | .bytesT => true
  | .stringT => true
  | .arrayT e (some n) => decide (0 < n) && validTy e
  | .arrayT e none => validTy e
  | .tupleT fs => (match fs with | .nil => false | .cons _ _ => true) && validTyList fs
def validTyList : TyList → Bool
  | .nil => true
  | .cons t ts => validTy t && validTyList ts
end

mutual
/-- Modelled from the spec: well-typedness of a `DecodedValue` against a
`TypeDescriptor` — matching tags, integers within the declared width,
fixed-bytes length equal to the declared width, bytes in 0..255, declared
fixed-array length matched (§3). -/
def wt : Ty → Val → Bool
  | .address, .vaddr a => decide (a < 2 ^ 160)
  | .boolT, .vbool _ => true
  | .uintT bits, .vuint n => decide (n < 2 ^ bits)
  | .intT bits, .vint i => decide (-(2 ^ (bits - 1) : Int) ≤ i ∧ i < 2 ^ (bits - 1))
  | .fixedBytes n, .vbytes bs => decide (bs.length = n) && bs.all (fun b => decide (b < 256))
  | .bytesT, .vbytes bs => bs.all (fun b => decide (b < 256))
  | .stringT, .vstr bs => bs.all (fun b => decide (b < 256))
  | .arrayT e (some n), .vlist vs => decide (vlen vs = n) && wtRep e vs
  | .arrayT e none, .vlist vs => wtRep e vs
  | .tupleT fs, .vtuple vs => wtItems fs vs
  | _, _ => false
def wtItems : TyList → ValList → Bool
  | .nil, .nil => true
  | .cons t ts, .cons v vs => wt t v && wtItems ts vs
  | _, _ => false
def wtRep : Ty → ValList → Bool
  | _, .nil => true
  | e, .cons v vs => wt e v && wtRep e vs
end

/-! ## ABI encoding (head/tail layout) -/

/-- One 32-byte big-endian word. -/
def word (n : Nat) : List Nat := natToBE 32 n

/-- Right-pad a byte string with zeros to a multiple of 32 bytes. -/
def padTo32 (bs : List Nat) : List Nat :=
  bs ++ List.replicate ((32 - bs.length % 32) % 32) 0

/-- Modelled from the spec: the head/tail assembly of §4.3 — static parts
are laid inline in the head, each dynamic part contributes a 32-byte offset
word (measured from the start of the block) to the head and its own
encoding to the tail.  `base0` is the total head size of the block and `tl`
the number of tail bytes already emitted. -/
def encParts : List (Bool × List Nat) → Nat → Nat → List Nat × List Nat
  | [], _, _ => ([], [])
  | (dyn, e) :: rest, base0, tl =>
    if dyn then
      let (h, t) := encParts rest base0 (tl + e.length)
      (word (base0 + tl) ++ h, e ++ t)
    else
      let (h, t) := encParts rest base0 tl
      (e ++ h, t)

mutual
/-- Modelled from the spec: the ABI encoding inverse of §4.3 (spec §8
round-trip property); static scalars fill one big-endian 32-byte slot,
signed integers are two's complement over the slot, fixed bytes are
right-padded, dynamic bytes/strings are a length word plus padded data,
arrays and tuples use the head/tail layout (dynamic arrays prefixed with
their length word). -/
def encVal : Ty → Val → List Nat
  | .address, .vaddr a => word a
  | .boolT, .vbool b => word (if b then 1 else 0)
  | .uintT _, .vuint n => word n
  | .intT _, .vint i => word ((i % (2 ^ 256 : Int)).toNat)
  | .fixedBytes _, .vbytes bs => bs ++ List.replicate (32 - bs.length) 0
  | .bytesT, .vbytes bs => word bs.length ++ padTo32 bs
  | .stringT, .vstr bs => word bs.length ++ padTo32 bs
  | .arrayT e (some _), .vlist vs =>
      let p := encParts (encItemsRep e vs) (vlen vs * headSize e) 0
      p.1 ++ p.2
  | .arrayT e none, .vlist vs =>
      let p := encParts (encItemsRep e vs) (vlen vs * headSize e) 0
      word (vlen vs) ++ p.1 ++ p.2
  | .tupleT fs, .vtuple vs =>
      let p := encParts (encItems fs vs) (headsSize fs) 0
      p.1 ++ p.2
  | _, _ => []
def encItems : TyList → ValList → List (Bool × List Nat)
  | .nil, _ => []
  | .cons _ _, .nil => []
  | .cons t ts, .cons v vs => (isDynamic t, encVal t v) :: encItems ts vs
def encItemsRep : Ty → ValList → List (Bool × List Nat)
  | _, .nil => []
  | e, .cons v vs => (isDynamic e, encVal e v) :: encItemsRep e vs
end

/-! ## ABI decoding -/

/-- Modelled from the spec: the decoder error taxonomy of §7 (the decoder
side of it). -/
inductive DErr where
  | invalidHexInput : DErr
  | truncatedPayload : DErr
  | unknownSelector : DErr
  | valueOverflow : DErr
  deriving Repr, DecidableEq

/-- Modelled from the spec: every read checks the payload has enough
remaining bytes for the declared width; running out of bytes is a decode
error, never an implicit zero-pad (§4.3 step 5). -/
def readWord (data : List Nat) (pos : Nat) : Except DErr Nat :=
  if pos + 32 ≤ data.length then .ok (beToNat ((data.drop pos).take 32))
  else .error .truncatedPayload

def readBytes (data : List Nat) (pos n : Nat) : Except DErr (List Nat) :=
  if pos + n ≤ data.length then .ok ((data.drop pos).take n)
  else .error .truncatedPayload

/-- Modelled from the spec: walk the head of a block (§4.3 steps 2-4):
each item is the triple (is-dynamic, head width, decoder); a static item is
decoded inline at the current head position, a dynamic item stores a 32-byte
offset relative to the block start `base` at which its tail data is
decoded. -/
def runFields : List (Bool × Nat × (List Nat → Nat → Except DErr Val)) →
    List Nat → Nat → Nat → Except DErr (List Val)
  | [], _, _, _ => .ok []
  | (dyn, hsz, d) :: rest, data, base, hpos =>
    if dyn then do
      let off ← readWord data hpos
      let v ← d data (base + off)
      let vs ← runFields rest data base (hpos + 32)
      pure (v :: vs)
    else do
      let v ← d data hpos
      let vs ← runFields rest data base (hpos + hsz)
      pure (v :: vs)

mutual
/-- Modelled from the spec: decode one value of type `t` whose encoding
starts at absolute position `pos` of `data` — the inline head slot for a
static type, the tail block for a dynamic type (§4.3 steps 2-4, numeric
rules of §4.3 "Numeric decoding": big-endian over the 32-byte slot,
validated to fit the declared width; two's-complement for signed). -/
def decVal : Ty → List Nat → Nat → Except DErr Val
  | .address, data, pos => do
      let w ← readWord data pos
      pure (.vaddr (w % 2 ^ 160))
  | .boolT, data, pos => do
      let w ← readWord data pos
      pure (.vbool (w != 0))
  | .uintT bits, data, pos => do
      let w ← readWord data pos
      if w < 2 ^ bits then pure (.vuint w) else .error .valueOverflow
  | .intT bits, data, pos => do
      let w ← readWord data pos
      let i : Int := if w < 2 ^ 255 then (w : Int) else (w : Int) - 2 ^ 256
      if -(2 ^ (bits - 1) : Int) ≤ i ∧ i < 2 ^ (bits - 1) then pure (.vint i)
      else .error .valueOverflow
  | .fixedBytes n, data, pos => do
      let bs ← readBytes data pos 32
      pure (.vbytes (bs.take n))
  | .bytesT, data, pos => do
      let n ← readWord data pos
      let bs ← readBytes data (pos + 32) n
      pure (.vbytes bs)
  | .stringT, data, pos => do
      let n ← readWord data pos
      let bs ← readBytes data (pos + 32) n
      pure (.vstr bs)
  | .arrayT e (some n), data, pos => do
      let vs ← runFields (List.replicate n (isDynamic e, headSize e, decVal e)) data pos pos
      pure (.vlist (ValList.ofList vs))
  | .arrayT e none, data, pos => do
      let n ← readWord data pos
      let vs ← runFields (List.replicate n (isDynamic e, headSize e, decVal e))
        data (pos + 32) (pos + 32)
      pure (.vlist (ValList.ofList vs))
  | .tupleT fs, data, pos => do
      let vs ← runFields (decItems fs) data pos pos
      pure (.vtuple (ValList.ofList vs))
def decItems : TyList → List (Bool × Nat × (List Nat → Nat → Except DErr Val))
  | .nil => []
  | .cons t ts => (isDynamic t, headSize t, decVal t) :: decItems ts
end

/-- Modelled from the spec: decode an argument payload (the call data after
the selector) against an ordered list of input types, starting at offset 0
(§4.3 step 2). -/
def decodeArgs (ts : List Ty) (payload : List Nat) : Except DErr (List Val) :=
  runFields (decItems (TyList.ofList ts)) payload 0 0

/-- Modelled from the spec: encode an argument list against its input
types; the inverse pinned by the §8 round-trip property. -/
def encodeArgs (ts : List Ty) (vs : List Val) : List Nat :=
  let p := encParts (encItems (TyList.ofList ts) (ValList.ofList vs))
    (headsSize (TyList.ofList ts)) 0
  p.1 ++ p.2

/-! ## Canonical type spellings, signatures and selectors -/

mutual
/-- Modelled from the spec: canonical type spelling used in signatures —
`uint256` not `uint`, tuples as parenthesized comma-joined components,
arrays with `[]`/`[n]` suffixes (§3, §4.2). -/
def canonicalTy : Ty → String
  | .address => "address"
  | .boolT => "bool"
  | .uintT bits => "uint" ++ toString bits
  | .intT bits => "int" ++ toString bits
  | .fixedBytes n => "bytes" ++ toString n
  | .bytesT => "bytes"
  | .stringT => "string"
  | .arrayT e none => canonicalTy e ++ "[]"
  | .arrayT e (some n) => canonicalTy e ++ "[" ++ toString n ++ "]"
  | .tupleT fs => "(" ++ canonicalTyList fs ++ ")"
def canonicalTyList : TyList → String
  | .nil => ""
  | .cons t .nil => canonicalTy t
  | .cons t (.cons u ts) => canonicalTy t ++ "," ++ canonicalTyList (.cons u ts)
end

/-- Modelled from the spec: one named parameter of a function entry. -/
structure Param where
  name : String
  ty : Ty
  deriving Repr

/-- Modelled from the spec: the `type` tag of an ABI entry (§3, §6). -/
inductive EntryKind where
  | functionK : EntryKind
  | constructorK : EntryKind
  | eventK : EntryKind
  | errorK : EntryKind
  | fallbackK : EntryKind
  | receiveK : EntryKind
  deriving Repr, DecidableEq

/-- Modelled from the spec: `FunctionEntry` of §3 — name, ordered inputs
and outputs, and the entry kind; only `function` entries participate in
call-data decoding. -/
structure AbiEntry where
  kind : EntryKind
  name : String
  inputs : List Param
  outputs : List Param
  deriving Repr

def strBytes (s : String) : List Nat := s.data.map Char.toNat

def joinComma : List String → String
  | [] => ""
  | [s] => s
  | s :: t :: r => s ++ "," ++ joinComma (t :: r)

/-- Modelled from the spec: the canonical signature
`name(type1,type2,...)` (§3, §4.2). -/
def signatureOf (f : AbiEntry) : String :=
  f.name ++ "(" ++ joinComma (f.inputs.map (fun p => canonicalTy p.ty)) ++ ")"

/-- Modelled from the spec: the 4-byte selector — the first 4 bytes of the
Keccak-256 digest of the UTF-8 bytes of the canonical signature (§4.2). -/
def selectorBytes (f : AbiEntry) : List Nat :=
  (keccak256 (strBytes (signatureOf f))).take 4

/-! ## Hex input -/

def hexDigitVal (c : Char) : Option Nat :=
  if c.isDigit then some (c.toNat - 48)
  else if 'a' ≤ c ∧ c ≤ 'f' then some (c.toNat - 87)
  else if 'A' ≤ c ∧ c ≤ 'F' then some (c.toNat - 55)
  else none

def hexPairsToBytes : List Char → Option (List Nat)
  | [] => some []
  | [_] => none
  | c1 :: c2 :: rest => do
      let h ← hexDigitVal c1
      let l ← hexDigitVal c2
      let bs ← hexPairsToBytes rest
      pure ((16 * h + l) :: bs)

def stripHexMarker (cs : List Char) : List Char :=
  match cs with
  | '0' :: 'x' :: rest => rest
  | _ => cs

/-- Modelled from the spec: call-data wire format — a `0x`-prefixed hex
string (§6); an odd digit count or a non-hex character is an
`InvalidHexInput` (§7). -/
def parseHexInput (s : String) : Option (List Nat) :=
  hexPairsToBytes (stripHexMarker s.data)

/-! ## Decoding entry points -/

def functionsOf (abi : List AbiEntry) : List AbiEntry :=
  abi.filter (fun f => f.kind == .functionK)

/-- Modelled from the spec: §4.3 step 1 — require at least 4 bytes, look
the selector up against every function entry's computed selector, fail
with `UnknownSelector` when nothing matches, then decode the argument
payload of the matched function. -/
def decodeBytes (abi : List AbiEntry) (bs : List Nat) :
    Except DErr (AbiEntry × List Val) :=
  if bs.length < 4 then .error .truncatedPayload
  else
    match (functionsOf abi).find? (fun f => selectorBytes f == bs.take 4) with
    | none => .error .unknownSelector
    | some f => (decodeArgs (f.inputs.map Param.ty) (bs.drop 4)).map (fun vs => (f, vs))

/-- Modelled from the spec: `decodeData` of the ABI codec library — parse
the hex input, then decode the bytes (§4.3, §6). -/
def decodeData (abi : List AbiEntry) (s : String) :
    Except DErr (AbiEntry × List Val) :=
  match parseHexInput s with
  | none => .error .invalidHexInput
  | some bs => decodeBytes abi bs

/-! ## Result formatting -/

def hexChar (n : Nat) : Char :=
  if n < 10 then Char.ofNat (48 + n) else Char.ofNat (87 + n)

def byteToHex (b : Nat) : String := String.mk [hexChar (b / 16 % 16), hexChar (b % 16)]

def bytesToHex (bs : List Nat) : String := String.join (bs.map byteToHex)

mutual
/-- Modelled from the spec: §4.4 rendering — addresses as `0x` plus 40
lowercase hex digits, booleans as `true`/`false`, integers in base 10,
bytes as `0x`-prefixed lowercase hex, strings as-is, arrays and tuples as
bracketed comma-joined renderings of their elements. -/
def renderVal : Val → String
  | .vaddr a => "0x" ++ bytesToHex (natToBE 20 a)
  | .vbool b => if b then "true" else "false"
  | .vuint n => toString n
  | .vint i => toString i
  | .vbytes bs => "0x" ++ bytesToHex bs
  | .vstr bs => String.mk (bs.map Char.ofNat)
  | .vlist vs => "[" ++ renderValList vs ++ "]"
  | .vtuple vs => "(" ++ renderValList vs ++ ")"
def renderValList : ValList → String
  | .nil => ""
  | .cons v .nil => renderVal v
  | .cons v (.cons w vs) => renderVal v ++ "," ++ renderValList (.cons w vs)
end

/-- One row of the decoded-parameters display (the hook's
`decodedResult` array elements, without the opaque `value` field). -/
structure DisplayRecord where
  name : String
  type : String
  displayValue : String
  parameterIndex : Nat
  deriving Repr, DecidableEq

/-- Modelled from the spec: `formatDecodedResult` (§4.4) — one display
record per declared parameter, the name falling back to the positional
index, total on every input; a missing value renders a best-effort
diagnostic string instead of propagating an error. -/
def formatDecodedResult (params : List Param) (vals : List Val) : List DisplayRecord :=
  (List.range params.length).map (fun i =>
    let p := params.getD i ⟨"", .boolT⟩
    { name := if p.name = "" then toString i else p.name
      type := canonicalTy p.ty
      displayValue := match vals[i]? with
        | some v => renderVal v
        | none => "<no value decoded>"
      parameterIndex := i })

/-- Modelled from the spec: `findFunction` of the ABI codec library — find
the function entry whose selector (lowercase hex, no `0x`) equals the given
string. -/
def findFunction (abi : List AbiEntry) (selHex : Option String) : Option AbiEntry :=
  match selHex with
  | none => none
  | some s => (functionsOf abi).find? (fun f => bytesToHex (selectorBytes f) == s)

/-! ## JSON values and a fueled JSON parser

Modelled from the spec: `AbiParser` (§4.1) validates raw interface JSON;
the library file holding it is not among the provided sources.  The parser
below accepts the JSON fragment the ABI format uses (strings, numbers,
booleans, null, arrays, objects, the standard single-character escapes);
`\uXXXX` escapes are not modelled. -/

inductive JVal where
  | jnull : JVal
  | jbool (b : Bool) : JVal
  | jnum (raw : String) : JVal
  | jstr (s : String) : JVal
  | jarr (xs : List JVal) : JVal
  | jobj (fields : List (String × JVal)) : JVal
  deriving Repr

def lbraceC : Char := Char.ofNat 123

def rbraceC : Char := Char.ofNat 125

def jsonWs (c : Char) : Bool := c == ' ' || c == '\t' || c == '\n' || c == '\r'

def skipWs (cs : List Char) : List Char := cs.dropWhile jsonWs

def unescape (e : Char) : Option Char :=
  if e = '"' then some '"'
  else if e = '\\' then some '\\'
  else if e = '/' then some '/'
  else if e = 'n' then some '\n'
  else if e = 't' then some '\t'
  else if e = 'r' then some '\r'
  else if e = 'b' then some (Char.ofNat 8)
  else if e = 'f' then some (Char.ofNat 12)
  else none

/-- Parse the remainder of a JSON string literal (after the opening quote),
returning its decoded characters and the unconsumed input. -/
def pStringAux : Nat → List Char → Option (List Char × List Char)
  | 0, _ => none
  | _ + 1, [] => none
  | fuel + 1, c :: rest =>
    if c = '"' then some ([], rest)
    else if c = '\\' then
      match rest with
      | [] => none
      | e :: rest2 =>
        match unescape e with
        | none => none
        | some d => do
            let (cs, r) ← pStringAux fuel rest2
            pure (d :: cs, r)
    else do
      let (cs, r) ← pStringAux fuel rest
      pure (c :: cs, r)

def jnumChar (c : Char) : Bool :=
  c.isDigit || c == '-' || c == '+' || c == '.' || c == 'e' || c == 'E'

mutual
def pJson : Nat → List Char → Option (JVal × List Char)
  | 0, _ => none
  | fuel + 1, cs =>
    match skipWs cs with
    | [] => none
    | c :: rest =>
      if c = '"' then
        (pStringAux (fuel + 1) rest).map (fun p => (.jstr (String.mk p.1), p.2))
      else if c = '[' then
        match skipWs rest with
        | ']' :: r2 => some (.jarr [], r2)
        | _ => (pArrayItems fuel rest).map (fun p => (.jarr p.1, p.2))
      else if c = lbraceC then
        match skipWs rest with
        | [] => none
        | c2 :: r2 =>
          if c2 = rbraceC then some (.jobj [], r2)
          else (pObjItems fuel rest).map (fun p => (.jobj p.1, p.2))
      else if c = 't' then
        match rest with
        | 'r' :: 'u' :: 'e' :: r => some (.jbool true, r)
        | _ => none
      else if c = 'f' then
        match rest with
        | 'a' :: 'l' :: 's' :: 'e' :: r => some (.jbool false, r)
        | _ => none
      else if c = 'n' then
        match rest with
        | 'u' :: 'l' :: 'l' :: r => some (.jnull, r)
        | _ => none
      else if c.isDigit || c = '-' then
        some (.jnum (String.mk ((c :: rest).takeWhile jnumChar)),
          (c :: rest).dropWhile jnumChar)
      else none
def pArrayItems : Nat → List Char → Option (List JVal × List Char)
  | 0, _ => none
  | fuel + 1, cs => do
    let (x, r) ← pJson fuel cs
    match skipWs r with
    | ',' :: r2 => do
        let (xs, r3) ← pArrayItems fuel r2
        pure (x :: xs, r3)
    | ']' :: r2 => pure ([x], r2)
    | _ => none
def pObjItems : Nat → List Char → Option (List (String × JVal) × List Char)
  | 0, _ => none
  | fuel + 1, cs =>
    match skipWs cs with
    | '"' :: rest => do
        let (k, r) ← pStringAux (fuel + 1) rest
        match skipWs r with
        | ':' :: r2 => do
            let (v, r3) ← pJson fuel r2
            match skipWs r3 with
            | [] => none
            | c :: r4 =>
              if c = ',' then do
                let (kvs, r5) ← pObjItems fuel r4
                pure ((String.mk k, v) :: kvs, r5)
              else if c = rbraceC then pure ([(String.mk k, v)], r4)
              else none
        | _ => none
    | _ => none
end

/-! ## ABI parsing -/

def jLookup (fields : List (String × JVal)) (k : String) : Option JVal :=
  (fields.find? (fun kv => kv.1 == k)).map (fun kv => kv.2)

def digitsToNat (cs : List Char) : Option Nat :=
  if cs.isEmpty || !cs.all Char.isDigit then none
  else some (cs.foldl (fun a c => a * 10 + (c.toNat - 48)) 0)

/-- Parse the `[]`/`[n]` suffixes of a type string, innermost first. -/
def parseArraySuffixes : Nat → List Char → Option (List (Option Nat))
  | 0, _ => none
  | _ + 1, [] => some []
  | fuel + 1, c :: rest =>
    if c = '[' then
      match rest with
      | ']' :: r2 => (parseArraySuffixes fuel r2).map (fun l => none :: l)
      | _ =>
        let ds := rest.takeWhile Char.isDigit
        if ds.isEmpty then none
        else
          match rest.drop ds.length with
          | ']' :: r2 => do
              let n ← digitsToNat ds
              let l ← parseArraySuffixes fuel r2
              pure (some n :: l)
          | _ => none
    else none

mutual
/-- Modelled from the spec: §4.1 base-type canonicalization — `uint` and
`int` default to width 256, explicit widths must be whole bytes in 8..256,
fixed-bytes widths 1..32, `tuple` requires a `components` array; any other
spelling is an unsupported type and fails the whole parse. -/
def parseBaseTy : Nat → List Char → Option JVal → Except String Ty
  | 0, _, _ => .error "ABI nesting too deep"
  | fuel + 1, baseChars, compsJ =>
    let base := String.mk baseChars
    if base = "address" then .ok .address
    else if base = "bool" then .ok .boolT
    else if base = "string" then .ok .stringT
    else if base = "bytes" then .ok .bytesT
    else if base = "uint" then .ok (.uintT 256)
    else if base = "int" then .ok (.intT 256)
    else if base = "tuple" then
      match compsJ with
      | some (.jarr comps) => do
          let ps ← parseParams fuel comps
          match ps with
          | [] => .error "Unsupported type: tuple with no components"
          | _ => .ok (.tupleT (TyList.ofList (ps.map Param.ty)))
      | _ => .error "Tuple type missing components"
    else if baseChars.take 4 = ['u', 'i', 'n', 't'] then
      match digitsToNat (baseChars.drop 4) with
      | some n =>
          if n % 8 == 0 && 8 ≤ n && n ≤ 256 then .ok (.uintT n)
          else .error ("Unsupported type: " ++ base)
      | none => .error ("Unsupported type: " ++ base)
    else if baseChars.take 3 = ['i', 'n', 't'] then
      match digitsToNat (baseChars.drop 3) with
      | some n =>
          if n % 8 == 0 && 8 ≤ n && n ≤ 256 then .ok (.intT n)
          else .error ("Unsupported type: " ++ base)
      | none => .error ("Unsupported type: " ++ base)
    else if baseChars.take 5 = ['b', 'y', 't', 'e', 's'] then
      match digitsToNat (baseChars.drop 5) with
      | some n =>
          if 1 ≤ n && n ≤ 32 then .ok (.fixedBytes n)
          else .error ("Unsupported type: " ++ base)
      | none => .error ("Unsupported type: " ++ base)
    else .error ("Unsupported type: " ++ base)
def parseTypeStr : Nat → String → Option JVal → Except String Ty
  | 0, _, _ => .error "ABI nesting too deep"
  | fuel + 1, tyStr, compsJ =>
    let cs := tyStr.data
    let baseChars := cs.takeWhile (fun c => c ≠ '[')
    let sufChars := cs.drop baseChars.length
    match parseArraySuffixes (sufChars.length + 1) sufChars with
    | none => .error ("Unsupported type: " ++ tyStr)
    | some sufs => do
        let b ← parseBaseTy fuel baseChars compsJ
        sufs.foldlM (fun t l =>
          match l with
          | none => .ok (.arrayT t none)
          | some 0 => .error ("Unsupported type: " ++ tyStr)
          | some n => .ok (.arrayT t (some n))) b
def parseParam : Nat → JVal → Except String Param
  | 0, _ => .error "ABI nesting too deep"
  | fuel + 1, j =>
    match j with
    | .jobj fields =>
        let nm := match jLookup fields "name" with
          | some (.jstr s) => s
          | _ => ""
        match jLookup fields "type" with
        | some (.jstr tyS) => do
            let t ← parseTypeStr fuel tyS (jLookup fields "components")
            .ok ⟨nm, t⟩
        | _ => .error "Parameter missing type"
    | _ => .error "Parameter is not an object"
def parseParams : Nat → List JVal → Except String (List Param)
  | 0, _ => .error "ABI nesting too deep"
  | _ + 1, [] => .ok []
  | fuel + 1, j :: js => do
      let p ← parseParam fuel j
      let ps ← parseParams fuel js
      .ok (p :: ps)
end

def parseKind (s : String) : Option EntryKind :=
  if s = "function" then some .functionK
  else if s = "constructor" then some .constructorK
  else if s = "event" then some .eventK
  else if s = "error" then some .errorK
  else if s = "fallback" then some .fallbackK
  else if s = "receive" then some .receiveK
  else none

/-- Modelled from the spec: §4.1 — every entry needs a `type` from the §6
set; `function` entries additionally need `name` and `inputs`; parameter
lists of every entry are validated; non-function entries are retained but
ignored by the decoder. -/
def parseEntry (fuel : Nat) (j : JVal) : Except String AbiEntry :=
  match j with
  | .jobj fields =>
      match jLookup fields "type" with
      | some (.jstr tyS) =>
          match parseKind tyS with
          | none => .error ("Unknown ABI entry type: " ++ tyS)
          | some k => do
              let nm := match jLookup fields "name" with
                | some (.jstr s) => s
                | _ => ""
              if k = .functionK then
                match jLookup fields "name", jLookup fields "inputs" with
                | some (.jstr _), some (.jarr _) => pure ()
                | _, _ => .error "Function entry missing name or inputs"
              else pure ()
              let ins ← match jLookup fields "inputs" with
                | some (.jarr xs) => parseParams fuel xs
                | _ => .ok []
              let outs ← match jLookup fields "outputs" with
                | some (.jarr xs) => parseParams fuel xs
                | _ => .ok []
              .ok ⟨k, nm, ins, outs⟩
      | _ => .error "ABI entry missing type"
  | _ => .error "ABI entry is not an object"

/-- Modelled from the spec: `parseAbi` (§4.1) — reject input that is not
syntactically valid JSON or not an array; build the entry list in
declaration order; any bad entry fails the whole parse (no partial ABI). -/
def parseAbi (s : String) : Except String (List AbiEntry) :=
  match pJson (4 * s.length + 16) s.data with
  | none => .error "Invalid JSON: failed to parse ABI"
  | some (j, rest) =>
      if !(skipWs rest).isEmpty then .error "Invalid JSON: trailing characters"
      else
        match j with
        | .jarr entries => entries.mapM (parseEntry (4 * s.length + 16))
        | _ => .error "ABI must be a JSON array"

/-! ## Contract resolver and ABI cache

Modelled from the spec: `abiFetcher` / `ContractResolver` / `AbiCache`
(§4.5, §4.6) of `src/lib/abi-fetcher.ts`, which is not among the provided
sources.  The external verified-source query together with the
proxy-detection walk (§4.5 steps 2-3) is abstracted as the `oracle`
parameter; the cache protocol (§4.5 steps 1 and 4, §4.6) is explicit.  The
`Nat` component of the results below counts external (non-cache) fetches
performed by the operation. -/

structure ContractInfo where
  contractAddress : String
  network : String
  abi : String
  contractName : String
  isVerified : Bool
  isProxy : Bool
  proxyType : Option String
  implementationAddress : Option String
  deriving Repr, DecidableEq

/-- Modelled from the spec: AbiCache entries are keyed by network id and
lowercase address and carry the insertion timestamp (§3, §4.6). -/
def Cache : Type := List ((String × String) × ContractInfo × Nat)

def sToLower (s : String) : String := String.mk (s.data.map Char.toLower)

/-- Modelled from the spec: §4.6 `get` — expired entries (lazily checked
against the TTL) behave as absent. -/
def cacheGet (now ttl : Nat) (net addr : String) (c : Cache) : Option ContractInfo :=
  match c.find? (fun e => e.1 == (net, addr)) with
  | some e => if now - e.2.2 < ttl then some e.2.1 else none
  | none => none

/-- Modelled from the spec: §4.6 `put` — atomic replace-on-write. -/
def cachePut (net addr : String) (info : ContractInfo) (now : Nat) (c : Cache) : Cache :=
  ((net, addr), info, now) :: c.filter (fun e => e.1 != (net, addr))

structure FetchOutcome where
  contractInfo : ContractInfo
  cacheUsed : Bool
  deriving Repr, DecidableEq

/-- Modelled from the spec: `abiFetcher.fetchContractAbi` (§4.5) —
normalize the address to lowercase, return a live cache hit immediately
with `cacheUsed = true` and no external fetch; on a miss query the external
collaborator (one external fetch), propagate its failure without touching
the cache, and on success insert the `ContractInfo` with the current
timestamp and return it with `cacheUsed = false`. -/
def fetchContractAbi (oracle : String → String → Except String ContractInfo)
    (now ttl : Nat) (addr net : String) (c : Cache) :
    Except String FetchOutcome × Cache × Nat :=
  let key := sToLower addr
  match cacheGet now ttl net key c with
  | some info => (.ok ⟨info, true⟩, c, 0)
  | none =>
    match oracle key net with
    | .error e => (.error e, c, 1)
    | .ok info => (.ok ⟨info, false⟩, cachePut net key info now c, 1)

/-- Modelled from the spec: the transaction-source collaborator result
(§6) — `to = none` signals a contract-creation transaction. -/
structure Transaction where
  «to» : Option String
  input : String
  deriving Repr, DecidableEq

/-! ## Hook state machines -/

structure FunctionInfoRec where
  name : String
  signature : String
  selector : String
  deriving Repr, DecidableEq

def mkFunctionInfo (f : AbiEntry) : FunctionInfoRec :=
  ⟨f.name, signatureOf f, "0x" ++ bytesToHex (selectorBytes f)⟩

/-- Modelled from the spec: the decoder error strings surfaced by the
library; the hooks only forward them, so the exact wording decides no
claim. -/
def derrMsg : DErr → String
  | .invalidHexInput => "Invalid hex input"
  | .truncatedPayload => "Data too short: expected at least 4 bytes for function selector"
  | .unknownSelector => "No matching function found for the given selector"
  | .valueOverflow => "Decoded value does not fit the declared type width"

def creationMsg : String :=
  "This is a contract creation transaction - no contract address to fetch ABI from"

end AbiDec

namespace AbiDec.Manual

/-- State of the simple `useAbiDecoder` hook
(`src/hooks/useAbiDecoder.ts`, `AbiDecoderState`). -/
structure State where
  abiJson : String
  encodedData : String
  parsedAbi : Option (List AbiEntry)
  functionInfo : Option FunctionInfoRec
  decodedResult : Option (List DisplayRecord)
  isLoading : Bool
  error : Option String
  deriving Repr

def initialState : State := ⟨"", "", none, none, none, false, none⟩

/-- Embedded from `src/hooks/useAbiDecoder.ts` lines 50-58. -/
def setAbiJson (s : State) (json : String) : State :=
  { s with abiJson := json, error := none, functionInfo := none, decodedResult := none }

/-- Embedded from `src/hooks/useAbiDecoder.ts` lines 60-68. -/
def setEncodedData (s : State) (data : String) : State :=
  { s with encodedData := data, error := none, functionInfo := none, decodedResult := none }

/-- Embedded from `src/hooks/useAbiDecoder.ts` lines 70-116: set loading,
parse the ABI, decode the data, format via the function found by selector,
and either publish the results (clearing the error) or record the failure
message with every other field untouched. -/
def decode (s : State) : State :=
  match parseAbi s.abiJson with
  | .error e => { s with isLoading := false, error := some e }
  | .ok abi =>
    match decodeData abi s.encodedData with
    | .error de => { s with isLoading := false, error := some (derrMsg de) }
    | .ok (fentry, vs) =>
        let func := findFunction abi (some ((mkFunctionInfo fentry).selector.drop 2))
        let parameters := match func with
          | some f => f.inputs
          | none => []
        let formatted := formatDecodedResult parameters vs
        { s with
          isLoading := false
          parsedAbi := some abi
          functionInfo := some (mkFunctionInfo fentry)
          decodedResult := some formatted
          error := none }

def reset (_ : State) : State := initialState

end AbiDec.Manual

namespace AbiDec.Hook

/-- The three decode modes of the full hook (`src/unnamed/part_004`). -/
inductive DecoderMode where
  | manual : DecoderMode
  | fetch : DecoderMode
  | contract : DecoderMode
  deriving Repr, DecidableEq

/-- State of the full `useAbiDecoder` hook (`src/unnamed/part_004`,
`AbiDecoderState`). -/
structure State where
  mode : DecoderMode
  selectedNetwork : String
  abiJson : String
  encodedData : String
  txHash : String
  contractAddress : String
  payloadData : String
  transactionDetails : Option Transaction
  contractInfo : Option ContractInfo
  parsedAbi : Option (List AbiEntry)
  functionInfo : Option FunctionInfoRec
  decodedResult : Option (List DisplayRecord)
  isLoading : Bool
  error : Option String
  cacheUsed : Bool
  deriving Repr

/-- Embedded from `src/unnamed/part_004` lines 136-144. -/
def setAbiJson (s : State) (json : String) : State :=
  { s with abiJson := json, error := none, functionInfo := none, decodedResult := none }

/-- Embedded from `src/unnamed/part_004` lines 146-154. -/
def setEncodedData (s : State) (data : String) : State :=
  { s with encodedData := data, error := none, functionInfo := none, decodedResult := none }

def isHexChar (c : Char) : Bool := (hexDigitVal c).isSome

/-- The characters `String.prototype.trim` removes (ECMAScript WhiteSpace
and LineTerminator). -/
def jsWhitespace (c : Char) : Bool :=
  c == ' ' || c == '\t' || c == '\n' || c == '\r' ||
  c == Char.ofNat 0x0b || c == Char.ofNat 0x0c || c == Char.ofNat 0xa0 ||
  c == Char.ofNat 0x1680 || (0x2000 ≤ c.toNat && c.toNat ≤ 0x200a) ||
  c == Char.ofNat 0x2028 || c == Char.ofNat 0x2029 || c == Char.ofNat 0x202f ||
  c == Char.ofNat 0x205f || c == Char.ofNat 0x3000 || c == Char.ofNat 0xfeff

/-- JS truthiness of `data.trim()`: false exactly when every character is
whitespace (including the empty string). -/
def jsTrimIsEmpty (s : String) : Bool := s.data.all jsWhitespace

/-- Embedded from `src/unnamed/part_004` lines 210-233: validate non-blank
payload data — strip an optional `0x`, require even length, then hex-only
characters — and store the input with results cleared. -/
def setPayloadData (s : State) (data : String) : State :=
  let err : Option String :=
    if !jsTrimIsEmpty data then
      let clean := stripHexMarker data.data
      if clean.length % 2 != 0 then
        some "Payload data must have even length (each byte requires 2 hex characters)"
      else if !(clean.all isHexChar) then
        some "Payload data must contain only hexadecimal characters"
      else none
    else none
  { s with payloadData := data, error := err, functionInfo := none, decodedResult := none }

/-- Embedded from `src/unnamed/part_004` lines 407-464 (`decodeWithData`):
parse the ABI, decode, format, and publish or record the failure message.
The body performs no resolver call, so the cache is threaded through
unchanged. -/
def decodeWithData (s : State) (abiJson encodedData : String) (c : Cache) :
    State × Cache :=
  match parseAbi abiJson with
  | .error e => ({ s with isLoading := false, error := some e }, c)
  | .ok abi =>
    match decodeData abi encodedData with
    | .error de => ({ s with isLoading := false, error := some (derrMsg de) }, c)
    | .ok (fentry, vs) =>
        let func := findFunction abi (some ((mkFunctionInfo fentry).selector.drop 2))
        let parameters := match func with
          | some f => f.inputs
          | none => []
        let formatted := formatDecodedResult parameters vs
        ({ s with
           isLoading := false
           parsedAbi := some abi
           functionInfo := some (mkFunctionInfo fentry)
           decodedResult := some formatted
           error := none }, c)

/-- Embedded from `src/unnamed/part_004` lines 235-285
(`fetchTransactionData`): require a transaction hash, set loading, fetch
the transaction (its result is the `txRes` argument), refuse
contract-creation transactions before any ABI fetch, otherwise resolve the
ABI through the cache-aware fetcher and populate the state. -/
def fetchTransactionData (oracle : String → String → Except String ContractInfo)
    (now ttl : Nat) (s : State) (c : Cache)
    (txRes : Except String Transaction) : State × Cache × Nat :=
  if s.txHash = "" then
    ({ s with error := some "Transaction hash is required" }, c, 0)
  else
    let s0 := { s with isLoading := true, error := none }
    match txRes with
    | .error e => ({ s0 with isLoading := false, error := some e }, c, 0)
    | .ok tx =>
      match tx.«to» with
      | none => ({ s0 with isLoading := false, error := some creationMsg }, c, 0)
      | some toAddr =>
        match fetchContractAbi oracle now ttl toAddr s.selectedNetwork c with
        | (.error e, c2, n) => ({ s0 with isLoading := false, error := some e }, c2, n)
        | (.ok out, c2, n) =>
            ({ s0 with
               isLoading := false
               transactionDetails := some tx
               contractInfo := some out.contractInfo
               abiJson := out.contractInfo.abi
               encodedData := tx.input
               cacheUsed := out.cacheUsed
               error := none }, c2, n)

/-- Embedded from `src/unnamed/part_004` lines 287-405 (`decode`): in
fetch mode without fetched data, fetch the transaction first (refusing
contract creations), resolve the ABI and decode; in contract mode without
a contract info, resolve the ABI by address and decode; otherwise decode
the current ABI/data fields. -/
def decode (oracle : String → String → Except String ContractInfo)
    (now ttl : Nat) (s : State) (c : Cache)
    (txRes : Except String Transaction) : State × Cache × Nat :=
  let s0 := { s with isLoading := true, error := none }
  if s.mode == .fetch && (s.transactionDetails.isNone || s.contractInfo.isNone) then
    if s.txHash = "" then
      ({ s0 with isLoading := false, error := some "Transaction hash is required" }, c, 0)
    else
      match txRes with
      | .error e => ({ s0 with isLoading := false, error := some e }, c, 0)
      | .ok tx =>
        match tx.«to» with
        | none => ({ s0 with isLoading := false, error := some creationMsg }, c, 0)
        | some toAddr =>
          match fetchContractAbi oracle now ttl toAddr s.selectedNetwork c with
          | (.error e, c2, n) => ({ s0 with isLoading := false, error := some e }, c2, n)
          | (.ok out, c2, n) =>
              let s1 := { s0 with
                transactionDetails := some tx
                contractInfo := some out.contractInfo
                abiJson := out.contractInfo.abi
                encodedData := tx.input
                cacheUsed := out.cacheUsed }
              let p := decodeWithData s1 out.contractInfo.abi tx.input c2
              (p.1, p.2, n)
  else if s.mode == .contract && s.contractInfo.isNone then
    if s.contractAddress = "" then
      ({ s0 with isLoading := false, error := some "Contract address is required" }, c, 0)
    else if s.payloadData = "" then
      ({ s0 with isLoading := false, error := some "Payload data is required" }, c, 0)
    else
      match fetchContractAbi oracle now ttl s.contractAddress s.selectedNetwork c with
      | (.error e, c2, n) => ({ s0 with isLoading := false, error := some e }, c2, n)
      | (.ok out, c2, n) =>
          let s1 := { s0 with
            contractInfo := some out.contractInfo
            abiJson := out.contractInfo.abi
            encodedData := s.payloadData
            cacheUsed := out.cacheUsed }
          let p := decodeWithData s1 out.contractInfo.abi s.payloadData c2
          (p.1, p.2, n)
  else
    let p := decodeWithData s0 s.abiJson s.encodedData c
    (p.1, p.2, 0)

end AbiDec.Hook

namespace AbiDec.Form

/-- State of the `useAbiDecoderForm` hook (`src/unnamed/part_002`,
`DecoderState`). -/
structure State where
  transactionDetails : Option Transaction
  contractInfo : Option ContractInfo
  parsedAbi : Option (List AbiEntry)
  functionInfo : Option FunctionInfoRec
  decodedResult : Option (List DisplayRecord)
  isLoading : Bool
  error : Option String
  cacheUsed : Bool
  deriving Repr

/-- The value returned to the caller by the form hook's
`fetchTransactionData`. -/
structure FetchReturn where
  transaction : Option Transaction
  contractInfo : Option ContractInfo
  error : Option String
  deriving Repr, DecidableEq

/-- Embedded from `src/unnamed/part_002` lines 59-103
(`fetchTransactionData`): set loading, fetch the transaction, refuse
contract-creation transactions before any ABI fetch, otherwise resolve the
ABI through the cache-aware fetcher; `net` is the form's selected
network. -/
def fetchTransactionData (oracle : String → String → Except String ContractInfo)
    (now ttl : Nat) (net : String) (s : State) (c : Cache)
    (txRes : Except String Transaction) : State × Cache × Nat × FetchReturn :=
  let s0 := { s with isLoading := true, error := none }
  match txRes with
  | .error e => ({ s0 with isLoading := false, error := some e }, c, 0, ⟨none, none, some e⟩)
  | .ok tx =>
    match tx.«to» with
    | none =>
        ({ s0 with
           isLoading := false
           error := some creationMsg }, c, 0,
         ⟨some tx, none, some creationMsg⟩)
    | some toAddr =>
      match fetchContractAbi oracle now ttl toAddr net c with
      | (.error e, c2, n) =>
          ({ s0 with isLoading := false, error := some e }, c2, n, ⟨none, none, some e⟩)
      | (.ok out, c2, n) =>
          ({ s0 with
             isLoading := false
             transactionDetails := some tx
             contractInfo := some out.contractInfo
             cacheUsed := out.cacheUsed
             error := none }, c2, n, ⟨some tx, some out.contractInfo, none⟩)

end AbiDec.Form

namespace AbiDec

/-! ## Theorems about the input setters (claims C9, C10) -/

/-- C9.  For every prior state and every string, the input setters
`setAbiJson` and `setEncodedData` (of both the simple hook in
`src/hooks/useAbiDecoder.ts` and the full hook in `src/unnamed/part_004`)
clear stale results — `functionInfo`, `decodedResult` and `error` become
`null` — update only their own input field, and leave every other state
field unchanged. -/
theorem setters_clear_stale_results (ms : Manual.State) (hs : Hook.State) (str : String) :
    Manual.setAbiJson ms str =
      { ms with abiJson := str, error := none, functionInfo := none, decodedResult := none } ∧
    Manual.setEncodedData ms str =
      { ms with encodedData := str, error := none, functionInfo := none, decodedResult := none } ∧
    Hook.setAbiJson hs str =
      { hs with abiJson := str, error := none, functionInfo := none, decodedResult := none } ∧
    Hook.setEncodedData hs str =
      { hs with encodedData := str, error := none, functionInfo := none, decodedResult := none } :=
  ⟨rfl, rfl, rfl, rfl⟩

/-- C10.  `setPayloadData` stores the given string in `payloadData`, sets
`functionInfo` and `decodedResult` to `null`, and the stored error is
`null` exactly when the input is empty/whitespace-only, or — after
stripping an optional `0x` — the remaining characters have even length and
are all hex digits. -/
theorem setPayloadData_validation (s : Hook.State) (data : String) :
    (Hook.setPayloadData s data).payloadData = data ∧
    (Hook.setPayloadData s data).functionInfo = none ∧
    (Hook.setPayloadData s data).decodedResult = none ∧
    (Hook.setPayloadData s data).error.isNone =
      (Hook.jsTrimIsEmpty data ||
        (((stripHexMarker data.data).length % 2 == 0) &&
          (stripHexMarker data.data).all Hook.isHexChar)) := by
  refine ⟨rfl, rfl, rfl, ?_⟩
  unfold Hook.setPayloadData
  cases h1 : Hook.jsTrimIsEmpty data with
  | true => simp [h1]
  | false =>
    simp only [h1, Bool.not_false, if_true, Bool.false_or]
    cases h2 : ((stripHexMarker data.data).length % 2 == 0) with
    | true =>
      have h2' : ((stripHexMarker data.data).length % 2 != 0) = false := by
        simp [bne] at h2 ⊢
        omega
      cases h3 : (stripHexMarker data.data).all Hook.isHexChar with
      | true => simp [h2', h3]
      | false => simp [h2', h3]
    | false =>
      have h2' : ((stripHexMarker data.data).length % 2 != 0) = true := by
        simp [bne] at h2 ⊢
        omega
      simp [h2']

/-! ## Totality of the result formatter (claim C8) -/

/-- C8.  `formatDecodedResult` is total: for every parameter list and every
decoded-value list — including mismatched shapes such as an empty parameter
list with non-empty values — it returns exactly one display record per
declared parameter (a missing value renders a diagnostic string rather than
failing). -/
theorem formatDecodedResult_total (ps : List Param) (vs : List Val) :
    (formatDecodedResult ps vs).length = ps.length := by
  simp [formatDecodedResult]

/-! ## Short and unmatched call data (claims C3, C6) -/

/-- C3.  Call data shorter than 4 bytes never decodes: a non-hex input
fails with `InvalidHexInput`, and a hex input of fewer than 4 bytes fails
with `TruncatedPayload`; no success result is produced. -/
theorem short_calldata_fails (abi : List AbiEntry) (s : String) :
    (parseHexInput s = none → decodeData abi s = .error .invalidHexInput) ∧
    (∀ bs, parseHexInput s = some bs → bs.length < 4 →
      decodeData abi s = .error .truncatedPayload) := by
  constructor
  · intro h
    simp [decodeData, h]
  · intro bs h hlen
    simp [decodeData, h, decodeBytes, hlen]

/-- Witness for C3 at `abi = []`, `s = "0x"` (zero bytes of call data). -/
theorem short_calldata_fails_witness :
    decodeData [] "0x" = .error .truncatedPayload := by
  have h := (short_calldata_fails [] "0x").2 []
  exact h rfl (by decide)

/-- C6.  Call data of at least 4 bytes whose selector matches no function
entry's computed selector fails with `UnknownSelector` and produces no
decoded value. -/
theorem unknown_selector_fails (abi : List AbiEntry) (bs : List Nat)
    (hlen : 4 ≤ bs.length)
    (hnone : ∀ f ∈ functionsOf abi, selectorBytes f ≠ bs.take 4) :
    decodeBytes abi bs = .error .unknownSelector := by
  have hnot : ¬ bs.length < 4 := by omega
  have hfind : (functionsOf abi).find? (fun f => selectorBytes f == bs.take 4) = none := by
    apply List.find?_eq_none.mpr
    intro f hf
    simpa using hnone f hf
  simp [decodeBytes, hnot, hfind]

/-- Witness for C6 at the empty ABI and four zero bytes. -/
theorem unknown_selector_fails_witness :
    decodeBytes [] [0, 0, 0, 0] = .error .unknownSelector := by
  apply unknown_selector_fails [] [0, 0, 0, 0] (by decide)
  intro f hf
  simp [functionsOf] at hf

/-! ## Cache behaviour of the resolver (claim C7) -/

/-- C7.  Resolving the same (address, network) pair twice within the TTL
performs the external fetch only on the first call: a first call that
misses the cache fetches once and stores the result; a second call within
the TTL returns the cached `ContractInfo` with `cacheUsed = true` and
performs no external fetch. -/
theorem cache_hit_on_second_resolve
    (oracle : String → String → Except String ContractInfo)
    (t1 t2 ttl : Nat) (addr net : String) (c : Cache) (info : ContractInfo)
    (hmiss : cacheGet t1 ttl net (sToLower addr) c = none)
    (hok : oracle (sToLower addr) net = .ok info)
    (hlive : t2 - t1 < ttl) :
    fetchContractAbi oracle t1 ttl addr net c =
      (.ok ⟨info, false⟩, cachePut net (sToLower addr) info t1 c, 1) ∧
    fetchContractAbi oracle t2 ttl addr net (cachePut net (sToLower addr) info t1 c) =
      (.ok ⟨info, true⟩, cachePut net (sToLower addr) info t1 c, 0) := by
  constructor
  · simp [fetchContractAbi, hmiss, hok]
  · have hget : cacheGet t2 ttl net (sToLower addr)
        (cachePut net (sToLower addr) info t1 c) = some info := by
      simp [cacheGet, cachePut, List.find?_cons, hlive]
    simp [fetchContractAbi, hget]

def sampleContractInfo : ContractInfo :=
  ⟨"0xabc", "ethereum", "[]", "Sample", true, false, none, none⟩

/-- Witness for C7: a concrete miss-then-hit run against a constant
oracle. -/
theorem cache_hit_on_second_resolve_witness :
    fetchContractAbi (fun _ _ => .ok sampleContractInfo) 0 10 "0xAB" "ethereum" [] =
      (.ok ⟨sampleContractInfo, false⟩,
        cachePut "ethereum" (sToLower "0xAB") sampleContractInfo 0 [], 1) ∧
    fetchContractAbi (fun _ _ => .ok sampleContractInfo) 5 10 "0xAB" "ethereum"
        (cachePut "ethereum" (sToLower "0xAB") sampleContractInfo 0 []) =
      (.ok ⟨sampleContractInfo, true⟩,
        cachePut "ethereum" (sToLower "0xAB") sampleContractInfo 0 [], 0) := by
  exact cache_hit_on_second_resolve (fun _ _ => .ok sampleContractInfo)
    0 5 10 "0xAB" "ethereum" [] sampleContractInfo (by rfl) (by rfl) (by decide)

end AbiDec

namespace AbiDec

/-! ## Contract-creation transactions are refused (claim C1) -/

/-- C1.  For every fetched transaction whose `to` field is absent, both
`fetchTransactionData` and `decode` in fetch mode refuse to decode: they
perform no ABI fetch (fetch count 0, cache unchanged), set the error to
the contract-creation message, set `isLoading` to false, and leave
`transactionDetails`, `contractInfo`, `functionInfo` and `decodedResult`
(and every other field) unchanged.  Covers the full hook
(`src/unnamed/part_004`) and the form hook (`src/unnamed/part_002`). -/
theorem creation_tx_refused
    (oracle : String → String → Except String ContractInfo)
    (now ttl : Nat) (hs : Hook.State) (fs : Form.State) (c : Cache)
    (net : String) (tx : Transaction)
    (hhash : hs.txHash ≠ "") (hto : tx.«to» = none) :
    Hook.fetchTransactionData oracle now ttl hs c (.ok tx) =
      ({ hs with isLoading := false, error := some creationMsg }, c, 0) ∧
    (hs.mode = .fetch → (hs.transactionDetails = none ∨ hs.contractInfo = none) →
      Hook.decode oracle now ttl hs c (.ok tx) =
        ({ hs with isLoading := false, error := some creationMsg }, c, 0)) ∧
    Form.fetchTransactionData oracle now ttl net fs c (.ok tx) =
      ({ fs with isLoading := false, error := some creationMsg }, c, 0,
        ⟨some tx, none, some creationMsg⟩) := by
  refine ⟨?_, ?_, ?_⟩
  · simp [Hook.fetchTransactionData, hhash, hto]
  · intro hmode hnone
    have hcond : (hs.mode == Hook.DecoderMode.fetch &&
        (hs.transactionDetails.isNone || hs.contractInfo.isNone)) = true := by
      rcases hnone with h | h <;> simp [hmode, h]
    simp [Hook.decode, hcond, hhash, hto]
  · simp [Form.fetchTransactionData, hto]

def hookStateA : Hook.State :=
  ⟨.fetch, "ethereum", "", "", "0xabc", "", "", none, none, none, none, none,
    false, none, false⟩

def formStateA : Form.State := ⟨none, none, none, none, none, false, none, false⟩

def txCreate : Transaction := ⟨none, "0xdeadbeef"⟩

/-- Witness for C1: a concrete fetch-mode state and a concrete
contract-creation transaction. -/
theorem creation_tx_refused_witness :
    Hook.fetchTransactionData (fun _ _ => .ok sampleContractInfo) 0 10 hookStateA []
        (.ok txCreate) =
      ({ hookStateA with isLoading := false, error := some creationMsg }, [], 0) ∧
    Hook.decode (fun _ _ => .ok sampleContractInfo) 0 10 hookStateA [] (.ok txCreate) =
      ({ hookStateA with isLoading := false, error := some creationMsg }, [], 0) ∧
    Form.fetchTransactionData (fun _ _ => .ok sampleContractInfo) 0 10 "ethereum"
        formStateA [] (.ok txCreate) =
      ({ formStateA with isLoading := false, error := some creationMsg }, [], 0,
        ⟨some txCreate, none, some creationMsg⟩) := by
  have h := creation_tx_refused (fun _ _ => .ok sampleContractInfo) 0 10 hookStateA
    formStateA [] "ethereum" txCreate (by decide) rfl
  exact ⟨h.1, h.2.1 rfl (Or.inl rfl), h.2.2⟩

/-! ## Decoder failures leave the state intact (claim C2) -/

/-- C2.  Whenever `parseAbi` or `decodeData` reports failure during a
decode, the resulting hook state differs from the prior state only in
`isLoading` (false) and `error` (the failure message): `functionInfo`,
`decodedResult`, `parsedAbi`, the cache and all input fields keep their
previous values.  Covers the simple hook's `decode`
(`src/hooks/useAbiDecoder.ts`) and the full hook's `decodeWithData`
(`src/unnamed/part_004`). -/
theorem decode_failure_leaves_state (ms : Manual.State) (hs : Hook.State)
    (c : Cache) (aj ed : String) :
    (∀ e, parseAbi ms.abiJson = .error e →
      Manual.decode ms = { ms with isLoading := false, error := some e }) ∧
    (∀ abi de, parseAbi ms.abiJson = .ok abi →
      decodeData abi ms.encodedData = .error de →
      Manual.decode ms = { ms with isLoading := false, error := some (derrMsg de) }) ∧
    (∀ e, parseAbi aj = .error e →
      Hook.decodeWithData hs aj ed c =
        ({ hs with isLoading := false, error := some e }, c)) ∧
    (∀ abi de, parseAbi aj = .ok abi → decodeData abi ed = .error de →
      Hook.decodeWithData hs aj ed c =
        ({ hs with isLoading := false, error := some (derrMsg de) }, c)) := by
  refine ⟨?_, ?_, ?_, ?_⟩
  · intro e h
    simp [Manual.decode, h]
  · intro abi de h1 h2
    simp [Manual.decode, h1, h2]
  · intro e h
    simp [Hook.decodeWithData, h]
  · intro abi de h1 h2
    simp [Hook.decodeWithData, h1, h2]

def manualStateA : Manual.State := ⟨"notjson", "", none, none, none, false, none⟩

def manualStateB : Manual.State := ⟨"[]", "0x", none, none, none, false, none⟩

/-- Witness for C2: a concrete malformed-ABI decode and a concrete
truncated-data decode, through both hooks. -/
theorem decode_failure_leaves_state_witness :
    Manual.decode manualStateA =
      { manualStateA with
        isLoading := false
        error := some "Invalid JSON: failed to parse ABI" } ∧
    Manual.decode manualStateB =
      { manualStateB with
        isLoading := false
        error := some (derrMsg .truncatedPayload) } ∧
    Hook.decodeWithData hookStateA "notjson" "" [] =
      ({ hookStateA with
         isLoading := false
         error := some "Invalid JSON: failed to parse ABI" }, []) ∧
    Hook.decodeWithData hookStateA "[]" "0x" [] =
      ({ hookStateA with
         isLoading := false
         error := some (derrMsg .truncatedPayload) }, []) := by
  have h1 := decode_failure_leaves_state manualStateA hookStateA [] "notjson" ""
  have h2 := decode_failure_leaves_state manualStateB hookStateA [] "[]" "0x"
  exact ⟨h1.1 _ rfl, h2.2.1 [] .truncatedPayload rfl rfl,
    h1.2.2.1 _ rfl, h2.2.2.2 [] .truncatedPayload rfl rfl⟩

end AbiDec

namespace AbiDec

/-! ## The concrete transfer scenario (claim C4) -/

def abiJsonTransfer : String :=
  "[\x7b\"type\":\"function\",\"name\":\"transfer\",\"inputs\":[\x7b\"name\":\"to\",\"type\":\"address\"\x7d,\x7b\"name\":\"amount\",\"type\":\"uint256\"\x7d]\x7d]"

def transferEntry : AbiEntry :=
  ⟨.functionK, "transfer", [⟨"to", .address⟩, ⟨"amount", .uintT 256⟩], []⟩

def transferData : String :=
  "0xa9059cbb000000000000000000000000742d35cc6634c0532925a3b8d91b94e8a72c3b310000000000000000000000000000000000000000000000000de0b6b3a7640000"

set_option maxRecDepth 200000 in
/-- C4.  Decoding the `transfer(address,uint256)` ABI against the concrete
call data of spec §8 succeeds, matches the function `transfer`, and yields
`to = 0x742d35cc6634c0532925a3b8d91b94e8a72c3b31` and
`amount = 1000000000000000000`, both at the decoded-value level and as the
hook's published display records. -/
theorem transfer_scenario :
    parseAbi abiJsonTransfer = .ok [transferEntry] ∧
    decodeData [transferEntry] transferData =
      .ok (transferEntry,
        [.vaddr 0x742d35cc6634c0532925a3b8d91b94e8a72c3b31, .vuint 1000000000000000000]) ∧
    Manual.decode
        { Manual.initialState with abiJson := abiJsonTransfer, encodedData := transferData } =
      { abiJson := abiJsonTransfer
        encodedData := transferData
        parsedAbi := some [transferEntry]
        functionInfo := some ⟨"transfer", "transfer(address,uint256)", "0xa9059cbb"⟩
        decodedResult := some
          [⟨"to", "address", "0x742d35cc6634c0532925a3b8d91b94e8a72c3b31", 0⟩,
           ⟨"amount", "uint256", "1000000000000000000", 1⟩]
        isLoading := false
        error := none } := by
  refine ⟨by rfl, by rfl, by rfl⟩

end AbiDec

namespace AbiDec

/-! ## Round-trip development (claim C5): basic lemmas -/

theorem ValList.toList_ofList (l : List Val) : (ValList.ofList l).toList = l := by
  induction l with
  | nil => rfl
  | cons v vs ih => simp [ValList.ofList, ValList.toList, ih]

theorem vlen_ofList (l : List Val) : vlen (ValList.ofList l) = l.length := by
  induction l with
  | nil => rfl
  | cons v vs ih => simp [ValList.ofList, vlen, ih]

theorem word_length (n : Nat) : (word n).length = 32 := natToBE_length 32 n

theorem pow256_32 : (256 : Nat) ^ 32 = 2 ^ 256 := by norm_num

theorem beToNat_word (n : Nat) (h : n < 2 ^ 256) : beToNat (word n) = n := by
  rw [word, beToNat_natToBE, pow256_32, Nat.mod_eq_of_lt h]

theorem readWord_splice (pre w post : List Nat) (hw : w.length = 32) :
    readWord (pre ++ w ++ post) pre.length = .ok (beToNat w) := by
  unfold readWord
  have hcond : pre.length + 32 ≤ (pre ++ w ++ post).length := by
    simp only [List.length_append, hw]
    omega
  rw [if_pos hcond, List.append_assoc, List.drop_left, ← hw, List.take_left]

theorem readWord_word (pre post : List Nat) (n : Nat) (h : n < 2 ^ 256) :
    readWord (pre ++ word n ++ post) pre.length = .ok n := by
  rw [readWord_splice pre (word n) post (word_length n), beToNat_word n h]

theorem readBytes_splice (pre bs post : List Nat) (n : Nat) (h : n ≤ bs.length) :
    readBytes (pre ++ bs ++ post) pre.length n = .ok (bs.take n) := by
  unfold readBytes
  have hcond : pre.length + n ≤ (pre ++ bs ++ post).length := by
    simp only [List.length_append]
    omega
  rw [if_pos hcond, List.append_assoc, List.drop_left, List.take_append_of_le_length h]

/-! Head and tail sizes contributed by an encoded part list. -/

def partsHeadLen : List (Bool × List Nat) → Nat
  | [] => 0
  | (dyn, e) :: rest => (if dyn then 32 else e.length) + partsHeadLen rest

def partsTailLen : List (Bool × List Nat) → Nat
  | [] => 0
  | (dyn, e) :: rest => (if dyn then e.length else 0) + partsTailLen rest

def partsLen (pes : List (Bool × List Nat)) : Nat := partsHeadLen pes + partsTailLen pes

theorem encParts_cons_dyn (e : List Nat) (pes : List (Bool × List Nat)) (base0 tl : Nat) :
    encParts ((true, e) :: pes) base0 tl =
      (word (base0 + tl) ++ (encParts pes base0 (tl + e.length)).1,
       e ++ (encParts pes base0 (tl + e.length)).2) := by
  simp [encParts]

theorem encParts_cons_static (e : List Nat) (pes : List (Bool × List Nat)) (base0 tl : Nat) :
    encParts ((false, e) :: pes) base0 tl =
      (e ++ (encParts pes base0 tl).1, (encParts pes base0 tl).2) := by
  simp [encParts]

theorem encParts_fst_length (pes : List (Bool × List Nat)) (base0 tl : Nat) :
    (encParts pes base0 tl).1.length = partsHeadLen pes := by
  induction pes generalizing tl with
  | nil => rfl
  | cons pe rest ih =>
      obtain ⟨dyn, e⟩ := pe
      cases dyn <;> simp [encParts, partsHeadLen, ih, word_length]

theorem encParts_snd_length (pes : List (Bool × List Nat)) (base0 tl : Nat) :
    (encParts pes base0 tl).2.length = partsTailLen pes := by
  induction pes generalizing tl with
  | nil => rfl
  | cons pe rest ih =>
      obtain ⟨dyn, e⟩ := pe
      cases dyn <;> simp [encParts, partsTailLen, ih]

/-! ## The generic head/tail walk recovers every field -/

/-- One decoder item (dynamic flag, head width, decoder) is good for an
encoded part and a value when the flags agree, the head width is the
encoding's length for a static part (32 for a dynamic one), and the
decoder recovers the value from its encoding in any surrounding
context. -/
def GoodItem (it : Bool × Nat × (List Nat → Nat → Except DErr Val))
    (pe : Bool × List Nat) (v : Val) : Prop :=
  it.1 = pe.1 ∧
  (it.1 = false → pe.2.length = it.2.1) ∧
  (it.1 = true → it.2.1 = 32) ∧
  (∀ pre post, it.2.2 (pre ++ pe.2 ++ post) pre.length = .ok v)

def GoodItems : List (Bool × Nat × (List Nat → Nat → Except DErr Val)) →
    List (Bool × List Nat) → List Val → Prop
  | [], [], [] => True
  | it :: its, pe :: pes, v :: vs => GoodItem it pe v ∧ GoodItems its pes vs
  | _, _, _ => False

/-- Walking the heads of a block laid out by `encParts` recovers exactly
the encoded values: `data` carries the remaining heads and remaining tails
of the block whose absolute start is `B`, with `base0` the block's total
head size, `tl` the tail bytes already laid out, and `mid` the bytes
between the remaining heads and the remaining tails. -/
theorem runFields_encParts_ok
    (its : List (Bool × Nat × (List Nat → Nat → Except DErr Val))) :
    ∀ (pes : List (Bool × List Nat)) (vs : List Val),
      GoodItems its pes vs →
      ∀ (base0 tl B : Nat) (data pre mid post : List Nat),
      data = pre ++ (encParts pes base0 tl).1 ++ mid ++ (encParts pes base0 tl).2 ++ post →
      B + base0 + tl = pre.length + (encParts pes base0 tl).1.length + mid.length →
      base0 + tl + (encParts pes base0 tl).2.length < 2 ^ 256 →
      runFields its data B pre.length = .ok vs := by
  induction its with
  | nil =>
      intro pes vs hg base0 tl B data pre mid post hD hI1 hI2
      cases pes with
      | cons pe pes' => cases vs <;> simp [GoodItems] at hg
      | nil =>
          cases vs with
          | cons v vs' => simp [GoodItems] at hg
          | nil => simp [runFields]
  | cons it its' ih =>
      intro pes vs hg base0 tl B data pre mid post hD hI1 hI2
      obtain ⟨dyn, hsz, d⟩ := it
      cases pes with
      | nil => cases vs <;> simp [GoodItems] at hg
      | cons pe pes' =>
          cases vs with
          | nil => simp [GoodItems] at hg
          | cons v vs' =>
              obtain ⟨dyn', e⟩ := pe
              obtain ⟨hgi, hg'⟩ := hg
              obtain ⟨hflag, hstlen, hdynlen, hdec⟩ := hgi
              simp only at hflag
              subst hflag
              cases dyn with
              | true =>
                  have h32 : hsz = 32 := hdynlen rfl
                  subst h32
                  rw [encParts_cons_dyn] at hD hI1 hI2
                  set H' := (encParts pes' base0 (tl + e.length)).1 with hH'
                  set T' := (encParts pes' base0 (tl + e.length)).2 with hT'
                  simp only [List.length_append, word_length] at hI1 hI2
                  -- the offset word read
                  have hoffb : base0 + tl < 2 ^ 256 := by
                    omega
                  have hread : readWord data pre.length = .ok (base0 + tl) := by
                    rw [hD]
                    have : pre ++ (word (base0 + tl) ++ H') ++ mid ++ (e ++ T') ++ post =
                        pre ++ word (base0 + tl) ++ (H' ++ mid ++ (e ++ T') ++ post) := by
                      simp [List.append_assoc]
                    rw [this]
                    exact readWord_word pre _ (base0 + tl) hoffb
                  -- decoding the tail value
                  have hval : d data (B + (base0 + tl)) = .ok v := by
                    have heq : data = (pre ++ word (base0 + tl) ++ H' ++ mid) ++ e ++
                        (T' ++ post) := by
                      rw [hD]
                      simp [List.append_assoc]
                    have hpos : B + (base0 + tl) =
                        (pre ++ word (base0 + tl) ++ H' ++ mid).length := by
                      simp [List.length_append, word_length]
                      omega
                    rw [heq, hpos]
                    exact hdec _ _
                  -- the remaining fields
                  have hrest : runFields its' data B (pre.length + 32) = .ok vs' := by
                    have hpre2 : (pre ++ word (base0 + tl)).length = pre.length + 32 := by
                      simp [List.length_append, word_length]
                    rw [← hpre2]
                    apply ih pes' vs' hg' base0 (tl + e.length) B data
                      (pre ++ word (base0 + tl)) (mid ++ e) post
                    · rw [hD]
                      simp [List.append_assoc]
                    · simp only [List.length_append, word_length, ← hH', ← hT']
                      omega
                    · simp only [← hT'] at hI2 ⊢
                      omega
                  simp [runFields, hread, hval, hrest, Bind.bind, Except.bind, pure, Except.pure]
              | false =>
                  have helen : e.length = hsz := hstlen rfl
                  rw [encParts_cons_static] at hD hI1 hI2
                  set H' := (encParts pes' base0 tl).1 with hH'
                  set T' := (encParts pes' base0 tl).2 with hT'
                  simp only [List.length_append] at hI1 hI2
                  have hval : d data pre.length = .ok v := by
                    have heq : data = pre ++ e ++ (H' ++ mid ++ T' ++ post) := by
                      rw [hD]
                      simp [List.append_assoc]
                    rw [heq]
                    exact hdec _ _
                  have hrest : runFields its' data B (pre.length + hsz) = .ok vs' := by
                    have hpre2 : (pre ++ e).length = pre.length + hsz := by
                      simp [List.length_append, helen]
                    rw [← hpre2]
                    apply ih pes' vs' hg' base0 tl B data (pre ++ e) mid post
                    · rw [hD]
                      simp [List.append_assoc]
                    · simp only [List.length_append, ← hH', ← hT']
                      omega
                    · simp only [← hT'] at hI2 ⊢
                      omega
                  simp [runFields, hval, hrest, Bind.bind, Except.bind, pure, Except.pure]

end AbiDec

namespace AbiDec

theorem ValList.ofList_toList (vs : ValList) : ValList.ofList vs.toList = vs := by
  cases vs with
  | nil => rfl
  | cons v vs => simp [ValList.toList, ValList.ofList, ValList.ofList_toList vs]

theorem partsLen_nil : partsLen [] = 0 := rfl

theorem partsLen_cons (dyn : Bool) (e : List Nat) (pes : List (Bool × List Nat)) :
    partsLen ((dyn, e) :: pes) =
      (if dyn then 32 + e.length else e.length) + partsLen pes := by
  cases dyn <;> simp [partsLen, partsHeadLen, partsTailLen] <;> omega

theorem elem_length_le_partsLen (dyn : Bool) (e : List Nat) (pes : List (Bool × List Nat)) :
    e.length ≤ partsLen ((dyn, e) :: pes) := by
  rw [partsLen_cons]
  cases dyn <;> simp <;> omega

theorem partsLen_le_cons (dyn : Bool) (e : List Nat) (pes : List (Bool × List Nat)) :
    partsLen pes ≤ partsLen ((dyn, e) :: pes) := by
  rw [partsLen_cons]
  omega

/-- A dynamic type occupies exactly the 32-byte offset word in the head. -/
theorem headSize_dyn (t : Ty) (h : isDynamic t = true) : headSize t = 32 := by
  cases t with
  | arrayT e l =>
      cases l with
      | none => rfl
      | some n =>
          have he : isDynamic e = true := by simpa [isDynamic] using h
          simp [headSize, he]
  | tupleT fs =>
      have hfs : anyDynamic fs = true := by simpa [isDynamic] using h
      simp [headSize, hfs]
  | address => rfl
  | boolT => rfl
  | uintT bits => rfl
  | intT bits => rfl
  | fixedBytes n => rfl
  | bytesT => rfl
  | stringT => rfl

mutual
/-- Every valid type occupies at least one 32-byte word in the head. -/
theorem headSize_ge (t : Ty) (hval : validTy t = true) : 32 ≤ headSize t := by
  cases t with
  | arrayT e l =>
      cases l with
      | none => simp [headSize]
      | some n =>
          cases he : isDynamic e with
          | true => simp [headSize, he]
          | false =>
              have hn : 0 < n ∧ validTy e = true := by
                simpa [validTy] using hval
              have h2 := headSize_ge e hn.2
              have h3 : 32 ≤ n * headSize e := by
                calc 32 = 1 * 32 := by omega
                  _ ≤ n * headSize e := Nat.mul_le_mul hn.1 h2
              simpa [headSize, he] using h3
  | tupleT fs =>
      cases fs with
      | nil => simp [validTy] at hval
      | cons t ts =>
          have hv : validTyList (TyList.cons t ts) = true := by
            simpa [validTy] using hval
          cases hd : anyDynamic (TyList.cons t ts) with
          | true => simp [headSize, hd]
          | false =>
              have h2 := headsSize_ge_head t ts hv
              simpa [headSize, hd] using h2
  | address => simp [headSize]
  | boolT => simp [headSize]
  | uintT bits => simp [headSize]
  | intT bits => simp [headSize]
  | fixedBytes n => simp [headSize]
  | bytesT => simp [headSize]
  | stringT => simp [headSize]
theorem headsSize_ge_head (t : Ty) (ts : TyList)
    (hval : validTyList (.cons t ts) = true) : 32 ≤ headsSize (.cons t ts) := by
  have h : validTy t = true := by
    have := hval
    simp [validTyList] at this
    exact this.1
  have := headSize_ge t h
  simp only [headsSize]
  omega
end

end AbiDec

namespace AbiDec

mutual
/-- The encoding of a well-typed value of a valid static type is exactly
its head size. -/
theorem encVal_static_length (t : Ty) (v : Val) (hst : isDynamic t = false)
    (hval : validTy t = true) (hwt : wt t v = true) :
    (encVal t v).length = headSize t := by
  cases t with
  | address =>
      cases v <;> simp [wt] at hwt <;> simp [encVal, headSize, word_length]
  | boolT =>
      cases v <;> simp [wt] at hwt
      simp [encVal, headSize, word_length]
  | uintT bits =>
      cases v <;> simp [wt] at hwt
      simp [encVal, headSize, word_length]
  | intT bits =>
      cases v <;> simp [wt] at hwt
      simp [encVal, headSize, word_length]
  | fixedBytes n =>
      cases v with
      | vbytes bs =>
          have h1 : bs.length = n ∧ ∀ b ∈ bs, b < 256 := by
            simpa [wt] using hwt
          have h2 : 1 ≤ n ∧ n ≤ 32 := by simpa [validTy] using hval
          simp [encVal, headSize, h1.1]
          omega
      | vaddr a => simp [wt] at hwt
      | vbool b => simp [wt] at hwt
      | vuint m => simp [wt] at hwt
      | vint i => simp [wt] at hwt
      | vstr bs => simp [wt] at hwt
      | vlist vs => simp [wt] at hwt
      | vtuple vs => simp [wt] at hwt
  | bytesT => simp [isDynamic] at hst
  | stringT => simp [isDynamic] at hst
  | arrayT e l =>
      cases l with
      | none => simp [isDynamic] at hst
      | some n =>
          have he : isDynamic e = false := by simpa [isDynamic] using hst
          cases v with
          | vlist vs =>
              have h1 : vlen vs = n ∧ wtRep e vs = true := by
                simpa [wt] using hwt
              have h2 : 0 < n ∧ validTy e = true := by
                simpa [validTy] using hval
              have h3 := encItemsRepStatic_lens e vs he h2.2 h1.2
              simp [encVal, headSize, he, List.length_append,
                encParts_fst_length, encParts_snd_length, h3.1, h3.2, h1.1]
          | vaddr a => simp [wt] at hwt
          | vbool b => simp [wt] at hwt
          | vuint m => simp [wt] at hwt
          | vint i => simp [wt] at hwt
          | vbytes bs => simp [wt] at hwt
          | vstr bs => simp [wt] at hwt
          | vtuple vs => simp [wt] at hwt
  | tupleT fs =>
      have hd : anyDynamic fs = false := by simpa [isDynamic] using hst
      cases v with
      | vtuple vs =>
          have h1 : wtItems fs vs = true := by simpa [wt] using hwt
          have h2 : validTyList fs = true := by
            cases fs with
            | nil => simp [validTy] at hval
            | cons t ts => simpa [validTy] using hval
          have h3 := encItemsStatic_lens fs vs hd h2 h1
          simp [encVal, headSize, hd, List.length_append,
            encParts_fst_length, encParts_snd_length, h3.1, h3.2]
      | vaddr a => simp [wt] at hwt
      | vbool b => simp [wt] at hwt
      | vuint m => simp [wt] at hwt
      | vint i => simp [wt] at hwt
      | vbytes bs => simp [wt] at hwt
      | vstr bs => simp [wt] at hwt
      | vlist vs => simp [wt] at hwt
theorem encItemsStatic_lens (ts : TyList) (vs : ValList) (hst : anyDynamic ts = false)
    (hval : validTyList ts = true) (hwt : wtItems ts vs = true) :
    partsHeadLen (encItems ts vs) = headsSize ts ∧
      partsTailLen (encItems ts vs) = 0 := by
  cases ts with
  | nil =>
      cases vs with
      | nil => simp [encItems, partsHeadLen, partsTailLen, headsSize]
      | cons v vs => simp [wtItems] at hwt
  | cons t ts =>
      cases vs with
      | nil => simp [wtItems] at hwt
      | cons v vs =>
          have h1 : isDynamic t = false ∧ anyDynamic ts = false := by
            simpa [anyDynamic] using hst
          have h2 : validTy t = true ∧ validTyList ts = true := by
            simpa [validTyList] using hval
          have h3 : wt t v = true ∧ wtItems ts vs = true := by
            simpa [wtItems] using hwt
          have ihv := encVal_static_length t v h1.1 h2.1 h3.1
          have ihl := encItemsStatic_lens ts vs h1.2 h2.2 h3.2
          simp [encItems, partsHeadLen, partsTailLen, headsSize, h1.1,
            ihv, ihl.1, ihl.2]
theorem encItemsRepStatic_lens (e : Ty) (vs : ValList) (hst : isDynamic e = false)
    (hval : validTy e = true) (hwt : wtRep e vs = true) :
    partsHeadLen (encItemsRep e vs) = vlen vs * headSize e ∧
      partsTailLen (encItemsRep e vs) = 0 := by
  cases vs with
  | nil => simp [encItemsRep, partsHeadLen, partsTailLen, vlen]
  | cons v vs =>
      have h3 : wt e v = true ∧ wtRep e vs = true := by
        simpa [wtRep] using hwt
      have ihv := encVal_static_length e v hst hval h3.1
      have ihl := encItemsRepStatic_lens e vs hst hval h3.2
      simp [encItemsRep, partsHeadLen, partsTailLen, vlen, hst, ihv, ihl.1, ihl.2]
      ring
end

end AbiDec

namespace AbiDec

/-- With any mix of static and dynamic fields, the head laid out by
`encParts` over `encItems` has exactly the declared total head size. -/
theorem encItems_headLen (ts : TyList) (vs : ValList)
    (hval : validTyList ts = true) (hwt : wtItems ts vs = true) :
    partsHeadLen (encItems ts vs) = headsSize ts := by
  cases ts with
  | nil =>
      cases vs with
      | nil => simp [encItems, partsHeadLen, headsSize]
      | cons v vs => simp [wtItems] at hwt
  | cons t ts =>
      cases vs with
      | nil => simp [wtItems] at hwt
      | cons v vs =>
          have h2 : validTy t = true ∧ validTyList ts = true := by
            simpa [validTyList] using hval
          have h3 : wt t v = true ∧ wtItems ts vs = true := by
            simpa [wtItems] using hwt
          have ih := encItems_headLen ts vs h2.2 h3.2
          cases hd : isDynamic t with
          | true =>
              simp [encItems, partsHeadLen, headsSize, hd, ih, headSize_dyn t hd]
          | false =>
              simp [encItems, partsHeadLen, headsSize, hd, ih,
                encVal_static_length t v hd h2.1 h3.1]

theorem encItemsRep_headLen (e : Ty) (vs : ValList)
    (hval : validTy e = true) (hwt : wtRep e vs = true) :
    partsHeadLen (encItemsRep e vs) = vlen vs * headSize e := by
  cases vs with
  | nil => simp [encItemsRep, partsHeadLen, vlen]
  | cons v vs =>
      have h3 : wt e v = true ∧ wtRep e vs = true := by
        simpa [wtRep] using hwt
      have ih := encItemsRep_headLen e vs hval h3.2
      cases hd : isDynamic e with
      | true =>
          simp [encItemsRep, partsHeadLen, vlen, hd, ih, headSize_dyn e hd]
          ring
      | false =>
          simp [encItemsRep, partsHeadLen, vlen, hd, ih,
            encVal_static_length e v hd hval h3.1]
          ring

/-- A uniform element type produces good decoder items for every element,
given the element-level round trip as a hypothesis. -/
theorem goodItems_rep (e : Ty)
    (ihe : ∀ v, wt e v = true → (encVal e v).length < 2 ^ 256 →
      ∀ pre post, decVal e (pre ++ encVal e v ++ post) pre.length = .ok v)
    (hval : validTy e = true) (vs : ValList) :
    wtRep e vs = true → partsLen (encItemsRep e vs) < 2 ^ 256 →
      GoodItems (List.replicate (vlen vs) (isDynamic e, headSize e, decVal e))
        (encItemsRep e vs) vs.toList := by
  cases vs with
  | nil =>
      intro _ _
      simp [vlen, encItemsRep, ValList.toList, GoodItems]
  | cons v vs =>
      intro hwt hb
      have h3 : wt e v = true ∧ wtRep e vs = true := by
        simpa [wtRep] using hwt
      rw [show encItemsRep e (.cons v vs) =
        (isDynamic e, encVal e v) :: encItemsRep e vs from rfl] at hb
      have hbe : (encVal e v).length < 2 ^ 256 :=
        lt_of_le_of_lt (elem_length_le_partsLen _ _ _) hb
      have hbr : partsLen (encItemsRep e vs) < 2 ^ 256 :=
        lt_of_le_of_lt (partsLen_le_cons _ _ _) hb
      have ihrest := goodItems_rep e ihe hval vs h3.2 hbr
      rw [show vlen (ValList.cons v vs) = vlen vs + 1 from rfl,
        show (ValList.cons v vs).toList = v :: vs.toList from rfl,
        show encItemsRep e (.cons v vs) =
          (isDynamic e, encVal e v) :: encItemsRep e vs from rfl,
        List.replicate_succ]
      refine ⟨⟨rfl, ?_, ?_, ?_⟩, ihrest⟩
      · intro hstat
        exact encVal_static_length e v hstat hval h3.1
      · intro hdyn
        exact headSize_dyn e hdyn
      · intro pre post
        exact ihe v h3.1 hbe pre post

end AbiDec

namespace AbiDec

theorem decVal_address_rt (a : Nat) (ha : a < 2 ^ 160) (pre post : List Nat) :
    decVal .address (pre ++ word a ++ post) pre.length = .ok (.vaddr a) := by
  have hb : a < 2 ^ 256 := lt_trans ha (by norm_num)
  simp only [decVal, Bind.bind, Except.bind]
  rw [readWord_word pre post a hb]
  dsimp only
  rw [Nat.mod_eq_of_lt ha]
  rfl

theorem decVal_bool_rt (b : Bool) (pre post : List Nat) :
    decVal .boolT (pre ++ word (if b then 1 else 0) ++ post) pre.length =
      .ok (.vbool b) := by
  cases b with
  | true =>
      show decVal .boolT (pre ++ word 1 ++ post) pre.length = .ok (.vbool true)
      simp only [decVal, Bind.bind, Except.bind]
      rw [readWord_word pre post 1 (by norm_num)]
      rfl
  | false =>
      show decVal .boolT (pre ++ word 0 ++ post) pre.length = .ok (.vbool false)
      simp only [decVal, Bind.bind, Except.bind]
      rw [readWord_word pre post 0 (by norm_num)]
      rfl

theorem decVal_uint_rt (bits n : Nat) (hbits : bits ≤ 256) (hn : n < 2 ^ bits)
    (pre post : List Nat) :
    decVal (.uintT bits) (pre ++ word n ++ post) pre.length = .ok (.vuint n) := by
  have h2 : n < 2 ^ 256 :=
    lt_of_lt_of_le hn (Nat.pow_le_pow_right (by norm_num) hbits)
  simp only [decVal, Bind.bind, Except.bind]
  rw [readWord_word pre post n h2]
  dsimp only
  rw [if_pos hn]
  rfl

set_option maxRecDepth 4000 in
theorem decVal_int_rt (bits : Nat) (i : Int) (hb8 : 8 ≤ bits) (hb256 : bits ≤ 256)
    (hlo : -(2 ^ (bits - 1) : Int) ≤ i) (hhi : i < 2 ^ (bits - 1))
    (pre post : List Nat) :
    decVal (.intT bits) (pre ++ word ((i % (2 ^ 256 : Int)).toNat) ++ post)
      pre.length = .ok (.vint i) := by
  have hK : (2 ^ (bits - 1) : Int) ≤ 2 ^ 255 := by
    apply pow_le_pow_right (by norm_num)
    omega
  have hM : (0 : Int) < 2 ^ 256 := by positivity
  have hmod0 : (0 : Int) ≤ i % 2 ^ 256 := Int.emod_nonneg i (by positivity)
  have hmodlt : i % 2 ^ 256 < 2 ^ 256 := Int.emod_lt_of_pos i hM
  have hcast : ((i % 2 ^ 256).toNat : Int) = i % 2 ^ 256 := Int.toNat_of_nonneg hmod0
  have h256 : ((2 ^ 256 : Nat) : Int) = (2 ^ 256 : Int) := by norm_num
  have h255 : ((2 ^ 255 : Nat) : Int) = (2 ^ 255 : Int) := by norm_num
  have h2h : (2 ^ 256 : Int) = 2 ^ 255 + 2 ^ 255 := by norm_num
  have hwlt : (i % 2 ^ 256).toNat < 2 ^ 256 := by omega
  have hread := readWord_word pre post ((i % 2 ^ 256).toNat) hwlt
  have hi' : (if (i % 2 ^ 256).toNat < 2 ^ 255 then (((i % 2 ^ 256).toNat : Nat) : Int)
      else (((i % 2 ^ 256).toNat : Nat) : Int) - 2 ^ 256) = i := by
    rcases le_or_lt 0 i with hpos | hneg
    · have hilt : i < 2 ^ 256 := lt_of_lt_of_le hhi (le_trans hK (by norm_num))
      have hemod : i % 2 ^ 256 = i := Int.emod_eq_of_lt hpos hilt
      have hwsmall : (i % 2 ^ 256).toNat < 2 ^ 255 := by omega
      rw [if_pos hwsmall, hcast, hemod]
    · have hemod : i % 2 ^ 256 = i + 2 ^ 256 := by
        have h1 : (i + 2 ^ 256) % 2 ^ 256 = i % 2 ^ 256 := by
          simpa using Int.add_mul_emod_self_left (a := i) (b := 2 ^ 256) (c := 1)
        have hge : -(2 ^ 256 : Int) ≤ i := by omega
        have h2 : (i + 2 ^ 256) % 2 ^ 256 = i + 2 ^ 256 :=
          Int.emod_eq_of_lt (by omega) (by omega)
        omega
      have hwbig : ¬ ((i % 2 ^ 256).toNat < 2 ^ 255) := by omega
      rw [if_neg hwbig, hcast, hemod]
      ring
  simp only [decVal, Bind.bind, Except.bind]
  rw [hread]
  dsimp only
  rw [hi', if_pos ⟨hlo, hhi⟩]
  rfl

theorem decVal_fixedBytes_rt (n : Nat) (bs : List Nat) (hn : n ≤ 32)
    (hlen : bs.length = n) (pre post : List Nat) :
    decVal (.fixedBytes n)
      (pre ++ (bs ++ List.replicate (32 - bs.length) 0) ++ post) pre.length =
      .ok (.vbytes bs) := by
  have he : (bs ++ List.replicate (32 - bs.length) 0).length = 32 := by
    simp only [List.length_append, List.length_replicate]
    omega
  have h1 := readBytes_splice pre (bs ++ List.replicate (32 - bs.length) 0) post 32
    (by omega)
  have h2 : (bs ++ List.replicate (32 - bs.length) 0).take 32 =
      bs ++ List.replicate (32 - bs.length) 0 :=
    List.take_of_length_le (le_of_eq he)
  have h3 : (bs ++ List.replicate (32 - bs.length) 0).take n = bs := by
    rw [List.take_append_of_le_length (by omega), ← hlen, List.take_length]
  simp only [decVal, Bind.bind, Except.bind]
  rw [h1]
  dsimp only
  rw [h2, h3]
  rfl

theorem padTo32_take (bs : List Nat) : (padTo32 bs).take bs.length = bs := by
  rw [padTo32, List.take_append_of_le_length le_rfl, List.take_length]

theorem length_le_padTo32 (bs : List Nat) : bs.length ≤ (padTo32 bs).length := by
  simp [padTo32, List.length_append]

theorem decVal_bytes_rt (bs : List Nat) (hblen : bs.length < 2 ^ 256)
    (pre post : List Nat) :
    decVal .bytesT (pre ++ (word bs.length ++ padTo32 bs) ++ post) pre.length =
      .ok (.vbytes bs) := by
  have hsplit : pre ++ (word bs.length ++ padTo32 bs) ++ post =
      pre ++ word bs.length ++ (padTo32 bs ++ post) := by
    simp [List.append_assoc]
  have h1 : readWord (pre ++ (word bs.length ++ padTo32 bs) ++ post) pre.length =
      .ok bs.length := by
    rw [hsplit]
    exact readWord_word _ _ _ hblen
  have hsplit2 : pre ++ (word bs.length ++ padTo32 bs) ++ post =
      (pre ++ word bs.length) ++ padTo32 bs ++ post := by
    simp [List.append_assoc]
  have hpos : pre.length + 32 = (pre ++ word bs.length).length := by
    simp [List.length_append, word_length]
  have h2 : readBytes (pre ++ (word bs.length ++ padTo32 bs) ++ post)
      (pre.length + 32) bs.length = .ok ((padTo32 bs).take bs.length) := by
    rw [hsplit2, hpos]
    exact readBytes_splice _ _ _ _ (length_le_padTo32 bs)
  simp only [decVal, Bind.bind, Except.bind]
  rw [h1]
  dsimp only
  rw [h2]
  dsimp only
  rw [padTo32_take]
  rfl

theorem decVal_string_rt (bs : List Nat) (hblen : bs.length < 2 ^ 256)
    (pre post : List Nat) :
    decVal .stringT (pre ++ (word bs.length ++ padTo32 bs) ++ post) pre.length =
      .ok (.vstr bs) := by
  have hsplit : pre ++ (word bs.length ++ padTo32 bs) ++ post =
      pre ++ word bs.length ++ (padTo32 bs ++ post) := by
    simp [List.append_assoc]
  have h1 : readWord (pre ++ (word bs.length ++ padTo32 bs) ++ post) pre.length =
      .ok bs.length := by
    rw [hsplit]
    exact readWord_word _ _ _ hblen
  have hsplit2 : pre ++ (word bs.length ++ padTo32 bs) ++ post =
      (pre ++ word bs.length) ++ padTo32 bs ++ post := by
    simp [List.append_assoc]
  have hpos : pre.length + 32 = (pre ++ word bs.length).length := by
    simp [List.length_append, word_length]
  have h2 : readBytes (pre ++ (word bs.length ++ padTo32 bs) ++ post)
      (pre.length + 32) bs.length = .ok ((padTo32 bs).take bs.length) := by
    rw [hsplit2, hpos]
    exact readBytes_splice _ _ _ _ (length_le_padTo32 bs)
  simp only [decVal, Bind.bind, Except.bind]
  rw [h1]
  dsimp only
  rw [h2]
  dsimp only
  rw [padTo32_take]
  rfl

end AbiDec

namespace AbiDec

mutual
/-- Decoding recovers every well-typed encoded value, in any surrounding
context, for every valid type. -/
theorem decVal_encVal_rt (t : Ty) (v : Val) (hval : validTy t = true)
    (hwt : wt t v = true) (hb : (encVal t v).length < 2 ^ 256)
    (pre post : List Nat) :
    decVal t (pre ++ encVal t v ++ post) pre.length = .ok v := by
  cases t with
  | address =>
      cases v <;> simp [wt] at hwt
      rename_i a
      exact decVal_address_rt a hwt pre post
  | boolT =>
      cases v <;> simp [wt] at hwt
      rename_i b
      exact decVal_bool_rt b pre post
  | uintT bits =>
      cases v <;> simp [wt] at hwt
      rename_i n
      have h2 : bits % 8 = 0 ∧ 8 ≤ bits ∧ bits ≤ 256 := by simpa [validTy] using hval
      exact decVal_uint_rt bits n h2.2.2 hwt pre post
  | intT bits =>
      cases v <;> simp [wt] at hwt
      rename_i i
      have h2 : bits % 8 = 0 ∧ 8 ≤ bits ∧ bits ≤ 256 := by simpa [validTy] using hval
      exact decVal_int_rt bits i h2.2.1 h2.2.2 hwt.1 hwt.2 pre post
  | fixedBytes n =>
      cases v <;> simp [wt] at hwt
      rename_i bs
      have h2 : 1 ≤ n ∧ n ≤ 32 := by simpa [validTy] using hval
      exact decVal_fixedBytes_rt n bs h2.2 hwt.1 pre post
  | bytesT =>
      cases v <;> simp [wt] at hwt
      rename_i bs
      have hblen : bs.length < 2 ^ 256 := by
        have h := length_le_padTo32 bs
        have h2 : (encVal .bytesT (.vbytes bs)).length = 32 + (padTo32 bs).length := by
          simp [encVal, List.length_append, word_length]
        omega
      exact decVal_bytes_rt bs hblen pre post
  | stringT =>
      cases v <;> simp [wt] at hwt
      rename_i bs
      have hblen : bs.length < 2 ^ 256 := by
        have h := length_le_padTo32 bs
        have h2 : (encVal .stringT (.vstr bs)).length = 32 + (padTo32 bs).length := by
          simp [encVal, List.length_append, word_length]
        omega
      exact decVal_string_rt bs hblen pre post
  | arrayT e l =>
      cases l with
      | some n =>
          cases v <;> simp [wt] at hwt
          rename_i vs
          obtain ⟨hlen, hrep⟩ := hwt
          have h2 : 0 < n ∧ validTy e = true := by simpa [validTy] using hval
          have henc : encVal (.arrayT e (some n)) (.vlist vs) =
              (encParts (encItemsRep e vs) (vlen vs * headSize e) 0).1 ++
              (encParts (encItemsRep e vs) (vlen vs * headSize e) 0).2 := rfl
          have hplen : partsLen (encItemsRep e vs) =
              (encVal (.arrayT e (some n)) (.vlist vs)).length := by
            rw [henc]
            simp [partsLen, List.length_append, encParts_fst_length, encParts_snd_length]
          have hb' : partsLen (encItemsRep e vs) < 2 ^ 256 := by
            rw [hplen]
            exact hb
          have hgood := goodItems_rep e
            (fun w hw hbw pr po => decVal_encVal_rt e w h2.2 hw hbw pr po)
            h2.2 vs hrep hb'
          have hhead : (encParts (encItemsRep e vs) (vlen vs * headSize e) 0).1.length =
              vlen vs * headSize e := by
            rw [encParts_fst_length]
            exact encItemsRep_headLen e vs h2.2 hrep
          have hrun := runFields_encParts_ok
            (List.replicate (vlen vs) (isDynamic e, headSize e, decVal e))
            (encItemsRep e vs) vs.toList hgood
            (vlen vs * headSize e) 0 pre.length
            (pre ++ encVal (.arrayT e (some n)) (.vlist vs) ++ post) pre [] post
            (by rw [henc]
                simp [List.append_assoc])
            (by simp only [hhead, List.length_nil]
                try omega)
            (by rw [encParts_snd_length]
                have hh := encItemsRep_headLen e vs h2.2 hrep
                have hpl : partsLen (encItemsRep e vs) =
                    partsHeadLen (encItemsRep e vs) + partsTailLen (encItemsRep e vs) := rfl
                omega)
          rw [hlen] at hrun
          simp only [decVal, Bind.bind, Except.bind]
          rw [hrun]
          dsimp only
          rw [ValList.ofList_toList]
          rfl
      | none =>
          cases v <;> simp [wt] at hwt
          rename_i vs
          have hve : validTy e = true := by simpa [validTy] using hval
          have henc : encVal (.arrayT e none) (.vlist vs) =
              word (vlen vs) ++
              (encParts (encItemsRep e vs) (vlen vs * headSize e) 0).1 ++
              (encParts (encItemsRep e vs) (vlen vs * headSize e) 0).2 := rfl
          have hplen : 32 + partsLen (encItemsRep e vs) =
              (encVal (.arrayT e none) (.vlist vs)).length := by
            rw [henc]
            simp [partsLen, List.length_append, word_length, encParts_fst_length,
              encParts_snd_length]
            try omega
          have hb' : partsLen (encItemsRep e vs) < 2 ^ 256 := by omega
          have hhead : (encParts (encItemsRep e vs) (vlen vs * headSize e) 0).1.length =
              vlen vs * headSize e := by
            rw [encParts_fst_length]
            exact encItemsRep_headLen e vs hve hwt
          have hsge := headSize_ge e hve
          have hvlen : vlen vs < 2 ^ 256 := by
            have hm : vlen vs ≤ vlen vs * headSize e := by
              calc vlen vs = vlen vs * 1 := by omega
                _ ≤ vlen vs * headSize e := Nat.mul_le_mul_left _ (by omega)
            have hh := encItemsRep_headLen e vs hve hwt
            have hpl : partsLen (encItemsRep e vs) =
                partsHeadLen (encItemsRep e vs) + partsTailLen (encItemsRep e vs) := rfl
            omega
          have hread : readWord (pre ++ encVal (.arrayT e none) (.vlist vs) ++ post)
              pre.length = .ok (vlen vs) := by
            have hshape : pre ++ encVal (.arrayT e none) (.vlist vs) ++ post =
                pre ++ word (vlen vs) ++
                ((encParts (encItemsRep e vs) (vlen vs * headSize e) 0).1 ++
                 ((encParts (encItemsRep e vs) (vlen vs * headSize e) 0).2 ++ post)) := by
              rw [henc]
              simp [List.append_assoc]
            rw [hshape]
            exact readWord_word _ _ _ hvlen
          have hgood := goodItems_rep e
            (fun w hw hbw pr po => decVal_encVal_rt e w hve hw hbw pr po)
            hve vs hwt hb'
          have hrun := runFields_encParts_ok
            (List.replicate (vlen vs) (isDynamic e, headSize e, decVal e))
            (encItemsRep e vs) vs.toList hgood
            (vlen vs * headSize e) 0 (pre.length + 32)
            (pre ++ encVal (.arrayT e none) (.vlist vs) ++ post)
            (pre ++ word (vlen vs)) [] post
            (by rw [henc]
                simp [List.append_assoc])
            (by simp only [hhead, List.length_append, word_length, List.length_nil]
                try omega)
            (by rw [encParts_snd_length]
                have hh := encItemsRep_headLen e vs hve hwt
                have hpl : partsLen (encItemsRep e vs) =
                    partsHeadLen (encItemsRep e vs) + partsTailLen (encItemsRep e vs) := rfl
                omega)
          have hplen32 : (pre ++ word (vlen vs)).length = pre.length + 32 := by
            simp [List.length_append, word_length]
          rw [hplen32] at hrun
          simp only [decVal, Bind.bind, Except.bind]
          rw [hread]
          dsimp only
          rw [hrun]
          dsimp only
          rw [ValList.ofList_toList]
          rfl
  | tupleT fs =>
      cases v <;> simp [wt] at hwt
      rename_i vs
      have hvl : validTyList fs = true := by
        cases fs with
        | nil => simp [validTy] at hval
        | cons t ts => simpa [validTy] using hval
      have henc : encVal (.tupleT fs) (.vtuple vs) =
          (encParts (encItems fs vs) (headsSize fs) 0).1 ++
          (encParts (encItems fs vs) (headsSize fs) 0).2 := rfl
      have hplen : partsLen (encItems fs vs) =
          (encVal (.tupleT fs) (.vtuple vs)).length := by
        rw [henc]
        simp [partsLen, List.length_append, encParts_fst_length, encParts_snd_length]
      have hb' : partsLen (encItems fs vs) < 2 ^ 256 := by
        rw [hplen]
        exact hb
      have hgood := decItems_good fs vs hvl hwt hb'
      have hhead : (encParts (encItems fs vs) (headsSize fs) 0).1.length =
          headsSize fs := by
        rw [encParts_fst_length]
        exact encItems_headLen fs vs hvl hwt
      have hrun := runFields_encParts_ok (decItems fs) (encItems fs vs) vs.toList hgood
        (headsSize fs) 0 pre.length
        (pre ++ encVal (.tupleT fs) (.vtuple vs) ++ post) pre [] post
        (by rw [henc]
            simp [List.append_assoc])
        (by simp only [hhead, List.length_nil]
            try omega)
        (by rw [encParts_snd_length]
            have hh := encItems_headLen fs vs hvl hwt
            have hpl : partsLen (encItems fs vs) =
                partsHeadLen (encItems fs vs) + partsTailLen (encItems fs vs) := rfl
            omega)
      simp only [decVal, Bind.bind, Except.bind]
      rw [hrun]
      dsimp only
      rw [ValList.ofList_toList]
      rfl
theorem decItems_good (ts : TyList) (vs : ValList) (hval : validTyList ts = true)
    (hwt : wtItems ts vs = true) (hb : partsLen (encItems ts vs) < 2 ^ 256) :
    GoodItems (decItems ts) (encItems ts vs) vs.toList := by
  cases ts with
  | nil =>
      cases vs with
      | nil => simp [decItems, encItems, ValList.toList, GoodItems]
      | cons v vs => simp [wtItems] at hwt
  | cons t ts =>
      cases vs with
      | nil => simp [wtItems] at hwt
      | cons v vs =>
          have h2 : validTy t = true ∧ validTyList ts = true := by
            simpa [validTyList] using hval
          have h3 : wt t v = true ∧ wtItems ts vs = true := by
            simpa [wtItems] using hwt
          rw [show encItems (.cons t ts) (.cons v vs) =
            (isDynamic t, encVal t v) :: encItems ts vs from rfl] at hb
          have hbe : (encVal t v).length < 2 ^ 256 :=
            lt_of_le_of_lt (elem_length_le_partsLen _ _ _) hb
          have hbr : partsLen (encItems ts vs) < 2 ^ 256 :=
            lt_of_le_of_lt (partsLen_le_cons _ _ _) hb
          rw [show decItems (.cons t ts) =
              (isDynamic t, headSize t, decVal t) :: decItems ts from rfl,
            show encItems (.cons t ts) (.cons v vs) =
              (isDynamic t, encVal t v) :: encItems ts vs from rfl,
            show (ValList.cons v vs).toList = v :: vs.toList from rfl]
          refine ⟨⟨rfl, ?_, ?_, ?_⟩, decItems_good ts vs h2.2 h3.2 hbr⟩
          · intro hstat
            exact encVal_static_length t v hstat h2.1 h3.1
          · intro hdyn
            exact headSize_dyn t hdyn
          · intro pr po
            exact decVal_encVal_rt t v h2.1 h3.1 hbe pr po
end

end AbiDec

namespace AbiDec

theorem selectorBytes_length (f : AbiEntry) : (selectorBytes f).length = 4 := by
  simp [selectorBytes, List.length_take, keccak256_length]

/-- C5.  For every function entry with valid input types and every
well-typed argument list (whose encoding fits the 2^256-byte offset space
of the ABI wire format), decoding the ABI encoding of the values against
that function recovers the function and exactly the original values:
`decode (encode vs) = vs`. -/
theorem decode_encode_roundtrip (f : AbiEntry) (vs : List Val)
    (hkind : f.kind = .functionK)
    (hval : validTyList (TyList.ofList (f.inputs.map Param.ty)) = true)
    (hwt : wtItems (TyList.ofList (f.inputs.map Param.ty)) (ValList.ofList vs) = true)
    (hb : (encodeArgs (f.inputs.map Param.ty) vs).length < 2 ^ 256) :
    decodeBytes [f] (selectorBytes f ++ encodeArgs (f.inputs.map Param.ty) vs) =
      .ok (f, vs) := by
  set ts := TyList.ofList (f.inputs.map Param.ty) with hts
  set payload := encodeArgs (f.inputs.map Param.ty) vs with hpay
  have hsel := selectorBytes_length f
  have hlen : ¬ ((selectorBytes f ++ payload).length < 4) := by
    simp [List.length_append, hsel]
  have htake : (selectorBytes f ++ payload).take 4 = selectorBytes f := by
    rw [← hsel]
    exact List.take_left _ _
  have hdrop : (selectorBytes f ++ payload).drop 4 = payload := by
    rw [← hsel]
    exact List.drop_left _ _
  have hfun : functionsOf [f] = [f] := by
    simp [functionsOf, hkind]
  have hfind : (functionsOf [f]).find?
      (fun g => selectorBytes g == (selectorBytes f ++ payload).take 4) = some f := by
    rw [hfun, htake]
    simp [List.find?_cons]
  have hplen' : partsLen (encItems ts (ValList.ofList vs)) = payload.length := by
    rw [hpay]
    simp [encodeArgs, partsLen, List.length_append, encParts_fst_length,
      encParts_snd_length, ← hts]
  have hb' : partsLen (encItems ts (ValList.ofList vs)) < 2 ^ 256 := by
    rw [hplen']
    exact hb
  have hgood := decItems_good ts (ValList.ofList vs) hval hwt hb'
  have hhead : (encParts (encItems ts (ValList.ofList vs)) (headsSize ts) 0).1.length =
      headsSize ts := by
    rw [encParts_fst_length]
    exact encItems_headLen ts (ValList.ofList vs) hval hwt
  have hrun := runFields_encParts_ok (decItems ts) (encItems ts (ValList.ofList vs))
    (ValList.ofList vs).toList hgood (headsSize ts) 0 0
    payload ([] : List Nat) ([] : List Nat) ([] : List Nat)
    (by rw [hpay]
        simp [encodeArgs, ← hts])
    (by simp only [hhead, List.length_nil]
        try omega)
    (by rw [encParts_snd_length]
        have hh := encItems_headLen ts (ValList.ofList vs) hval hwt
        have hpl : partsLen (encItems ts (ValList.ofList vs)) =
            partsHeadLen (encItems ts (ValList.ofList vs)) +
            partsTailLen (encItems ts (ValList.ofList vs)) := rfl
        omega)
  rw [ValList.toList_ofList] at hrun
  simp only [decodeBytes]
  rw [if_neg hlen, hfind]
  have hargs : decodeArgs (f.inputs.map Param.ty)
      ((selectorBytes f ++ payload).drop 4) = .ok vs := by
    rw [hdrop]
    simpa [decodeArgs, ← hts] using hrun
  dsimp only
  rw [hargs]
  rfl

def transferVals : List Val :=
  [.vaddr 0x742d35cc6634c0532925a3b8d91b94e8a72c3b31, .vuint 1000000000000000000]

/-- Witness for C5: the transfer entry and its concrete argument values
round-trip through encode and decode. -/
theorem decode_encode_roundtrip_witness :
    transferEntry.kind = .functionK ∧
    validTyList (TyList.ofList (transferEntry.inputs.map Param.ty)) = true ∧
    wtItems (TyList.ofList (transferEntry.inputs.map Param.ty))
      (ValList.ofList transferVals) = true ∧
    (encodeArgs (transferEntry.inputs.map Param.ty) transferVals).length < 2 ^ 256 ∧
    decodeBytes [transferEntry]
        (selectorBytes transferEntry ++
          encodeArgs (transferEntry.inputs.map Param.ty) transferVals) =
      .ok (transferEntry, transferVals) :=
  ⟨rfl, by decide, by decide, by decide,
    decode_encode_roundtrip transferEntry transferVals rfl (by decide) (by decide)
      (by decide)⟩

end AbiDec
